import Mathlib

/-!
# Verification of the conduit memory store (src/src-tauri/src/memory/mod.rs)

A shallow embedding of the markdown-with-frontmatter encoding, the strict and
permissive (recovery) decoders, and the file-backed store operations of the
conduit repository, together with theorems settling the frozen claims about
them.

Strings are modelled at the character-list level.  The behaviour of the three
regular expressions used by the source is embedded as explicit leftmost-match
scanning functions; the behaviour of the chrono timestamp formatter and the
four timestamp parsers used by the source is embedded as explicit calendar
arithmetic.  The filesystem is modelled as an explicit state value (base
directory present or not, plus an association list from file names to file
contents) threaded through the store operations.
-/

namespace Conduit

set_option maxRecDepth 100000

/-! ## Character-list infrastructure -/

/-- `Occurs p s` means the pattern `p` occurs contiguously inside `s`. -/
def Occurs (p s : List Char) : Prop := ∃ a b : List Char, s = a ++ p ++ b

/-- Boolean substring test (used to state decidable side conditions and to
model the Rust `str::contains` calls of the source). -/
def containsSub (p : List Char) : List Char → Bool
  | [] => p.isPrefixOf []
  | c :: t => p.isPrefixOf (c :: t) || containsSub p t

/-- Split at the leftmost occurrence of `p`: returns the part before the
occurrence and the part after it.  This models an unanchored leftmost regex
match of a literal pattern. -/
def splitFirst (p : List Char) (s : List Char) : Option (List Char × List Char) :=
  match s with
  | [] => if p.isPrefixOf [] then some ([], []) else none
  | c :: t =>
    if p.isPrefixOf (c :: t) then some ([], (c :: t).drop p.length)
    else (splitFirst p t).map (fun q => (c :: q.1, q.2))

/-- Split at the rightmost occurrence of `p` (used for greedy capture). -/
def splitLast (p : List Char) (s : List Char) : Option (List Char × List Char) :=
  match s with
  | [] => if p.isPrefixOf [] then some ([], []) else none
  | c :: t =>
    match splitLast p t with
    | some q => some (c :: q.1, q.2)
    | none => if p.isPrefixOf (c :: t) then some ([], (c :: t).drop p.length) else none

theorem isPrefixOf_iff_exists {p s : List Char} :
    p.isPrefixOf s = true ↔ ∃ r, s = p ++ r := by
  rw [List.isPrefixOf_iff_prefix]
  constructor
  · rintro ⟨r, rfl⟩; exact ⟨r, rfl⟩
  · rintro ⟨r, rfl⟩; exact ⟨r, rfl⟩

theorem containsSub_iff_occurs {p s : List Char} :
    containsSub p s = true ↔ Occurs p s := by
  induction s with
  | nil =>
    simp only [containsSub, isPrefixOf_iff_exists, Occurs]
    constructor
    · rintro ⟨r, h⟩
      exact ⟨[], r, by simpa using h⟩
    · rintro ⟨a, b, h⟩
      have ha : a = [] := by
        cases a with
        | nil => rfl
        | cons x xs => simp at h
      subst ha
      exact ⟨b, by simpa using h⟩
  | cons c t ih =>
    simp only [containsSub, Bool.or_eq_true, ih, isPrefixOf_iff_exists]
    constructor
    · rintro (⟨r, h⟩ | ⟨a, b, rfl⟩)
      · exact ⟨[], r, by simpa using h⟩
      · exact ⟨c :: a, b, rfl⟩
    · rintro ⟨a, b, h⟩
      cases a with
      | nil => exact Or.inl ⟨b, by simpa using h⟩
      | cons x xs =>
        simp only [List.cons_append, List.cons.injEq] at h
        exact Or.inr ⟨xs, b, h.2⟩

theorem not_occurs_of_containsSub_eq_false {p s : List Char}
    (h : containsSub p s = false) : ¬ Occurs p s := by
  intro hocc
  rw [← containsSub_iff_occurs] at hocc
  simp [h] at hocc

theorem occurs_mono_left {p s : List Char} (c : Char) (h : Occurs p s) :
    Occurs p (c :: s) := by
  obtain ⟨a, b, rfl⟩ := h
  exact ⟨c :: a, b, rfl⟩

/-- Key lemma: if the pattern does not occur strictly before the designated
occurrence, `splitFirst` lands exactly on it.  Occurrences starting before
position `a.length` are contained in `a ++ p.dropLast`, which is why that is
the side condition. -/
theorem occurs_of_isPre {p s : List Char} (h : p <+: s) : Occurs p s := by
  obtain ⟨r, rfl⟩ := h
  exact ⟨[], r, rfl⟩

/-- If `p` starts somewhere inside `a ++ p ++ b` at a position `< a.length`,
then `p` already occurs in `a ++ p.dropLast`; contrapositive form used to
locate leftmost matches. -/
theorem not_prefix_cons {p : List Char} (hp : p ≠ []) (c : Char) (t b : List Char)
    (h : ¬ Occurs p (c :: t ++ p.dropLast)) :
    ¬ p.isPrefixOf (c :: t ++ p ++ b) = true := by
  intro hpref
  obtain ⟨r, hr⟩ := isPrefixOf_iff_exists.mp hpref
  apply h
  apply occurs_of_isPre
  have hp1 : 1 ≤ p.length := by
    cases p with
    | nil => exact absurd rfl hp
    | cons x xs => simp
  have hfull : p <+: (c :: t ++ p ++ b) := ⟨r, hr.symm⟩
  have hsplit : (c :: t ++ p.dropLast) <+: (c :: t ++ p ++ b) := by
    obtain ⟨z, hz⟩ := List.dropLast_prefix p
    refine ⟨z ++ b, ?_⟩
    conv_rhs => rw [← hz]
    simp
  refine List.prefix_of_prefix_length_le hfull hsplit ?_
  simp [List.length_dropLast]
  omega

theorem splitFirst_append {p : List Char} (hp : p ≠ []) (a b : List Char)
    (h : ¬ Occurs p (a ++ p.dropLast)) :
    splitFirst p (a ++ p ++ b) = some (a, b) := by
  induction a with
  | nil =>
    have hpref : p.isPrefixOf (p ++ b) = true :=
      isPrefixOf_iff_exists.mpr ⟨b, rfl⟩
    obtain ⟨c, t, rfl⟩ : ∃ c t, p = c :: t := by
      cases p with
      | nil => exact absurd rfl hp
      | cons c t => exact ⟨c, t, rfl⟩
    have hstep : (c :: t) ++ b = c :: (t ++ b) := by simp
    rw [List.nil_append, hstep, splitFirst]
    rw [hstep] at hpref
    simp only [hpref, if_true]
    rw [← hstep, List.drop_left]
  | cons c t ih =>
    have hnotpref := not_prefix_cons hp c t b (by simpa using h)
    have harr : (c :: t) ++ p ++ b = c :: (t ++ p ++ b) := by simp
    rw [harr, splitFirst]
    have harr2 : c :: (t ++ p ++ b) = (c :: t) ++ p ++ b := by simp
    rw [harr2]
    simp only [hnotpref, if_false]
    rw [ih (fun hocc => h (by simpa using occurs_mono_left c (by simpa using hocc)))]
    simp

theorem splitLast_eq_none {p s : List Char} (h : ¬ Occurs p s) :
    splitLast p s = none := by
  induction s with
  | nil =>
    have : ¬ p.isPrefixOf [] = true := by
      intro hpref
      obtain ⟨r, hr⟩ := isPrefixOf_iff_exists.mp hpref
      exact h ⟨[], r, by simpa using hr⟩
    simp [splitLast, this]
  | cons c t ih =>
    have h1 : ¬ Occurs p t := fun hocc => h (occurs_mono_left c hocc)
    have h2 : ¬ p.isPrefixOf (c :: t) = true := by
      intro hpref
      obtain ⟨r, hr⟩ := isPrefixOf_iff_exists.mp hpref
      exact h ⟨[], r, by simpa using hr⟩
    simp [splitLast, ih h1, h2]

/-- Analogue of `splitFirst_append` for the rightmost occurrence: if the
pattern does not occur strictly after the designated occurrence, `splitLast`
lands exactly on it. -/
theorem splitLast_append {p : List Char} (hp : p ≠ []) (a b : List Char)
    (h : ¬ Occurs p (p.drop 1 ++ b)) :
    splitLast p (a ++ p ++ b) = some (a, b) := by
  induction a with
  | nil =>
    obtain ⟨c, t, rfl⟩ : ∃ c t, p = c :: t := by
      cases p with
      | nil => exact absurd rfl hp
      | cons c t => exact ⟨c, t, rfl⟩
    have hnone : splitLast (c :: t) (t ++ b) = none := by
      apply splitLast_eq_none
      simpa using h
    have hpref : (c :: t).isPrefixOf (c :: (t ++ b)) = true :=
      isPrefixOf_iff_exists.mpr ⟨b, by simp⟩
    have harr : [] ++ (c :: t) ++ b = c :: (t ++ b) := by simp
    rw [harr, splitLast, hnone, hpref]
    simp only [if_true]
    have hdrop : (c :: (t ++ b)).drop (c :: t).length = b := by
      have : c :: (t ++ b) = (c :: t) ++ b := by simp
      rw [this, List.drop_left]
    rw [hdrop]
  | cons c t ih =>
    have harr : (c :: t) ++ p ++ b = c :: (t ++ p ++ b) := by simp
    rw [harr, splitLast, ih]

theorem occurs_trans {q p s : List Char} (h1 : Occurs q p) (h2 : Occurs p s) :
    Occurs q s := by
  obtain ⟨u, v, rfl⟩ := h1
  obtain ⟨a, b, rfl⟩ := h2
  exact ⟨a ++ u, v ++ b, by simp⟩

/-- Where can a pattern occur in a concatenation: fully inside the left part,
fully inside the right part, or straddling the boundary. -/
theorem occurs_append_cases {p x y : List Char} (h : Occurs p (x ++ y)) :
    Occurs p x ∨ Occurs p y ∨
      ∃ k, 0 < k ∧ k < p.length ∧ (p.take k) <:+ x ∧ (p.drop k) <+: y := by
  obtain ⟨a, b, heq⟩ := h
  rcases le_or_lt x.length a.length with hle | hgt
  · -- the occurrence starts at or after the boundary: inside `y`
    refine Or.inr (Or.inl ⟨a.drop x.length, b, ?_⟩)
    have hy : y = (x ++ y).drop x.length := by simp
    rw [hy, heq, List.append_assoc, List.drop_append_eq_append_drop,
      Nat.sub_eq_zero_of_le hle, List.drop_zero, List.append_assoc]
  · rcases le_or_lt (a.length + p.length) x.length with hle2 | hgt2
    · -- the occurrence ends at or before the boundary: inside `x`
      refine Or.inl ⟨a, b.take (x.length - (a.length + p.length)), ?_⟩
      have hx : x = (x ++ y).take x.length := by simp
      conv_lhs => rw [hx, heq]
      have h1 : (a ++ p).take x.length = a ++ p :=
        List.take_of_length_le (by simp; omega)
      rw [List.take_append_eq_append_take, h1]
      simp [List.append_assoc]
    · -- straddling occurrence
      refine Or.inr (Or.inr ⟨x.length - a.length, by omega, by omega, ?_, ?_⟩)
      · refine ⟨a, ?_⟩
        have hx : x = (x ++ y).take x.length := by simp
        conv_rhs => rw [hx, heq]
        rw [List.append_assoc, List.take_append_eq_append_take]
        have h1 : a.take x.length = a := List.take_of_length_le (by omega)
        rw [h1, List.take_append_eq_append_take]
        have h2 : x.length - a.length - p.length = 0 := by omega
        rw [h2]
        simp
      · refine ⟨(b.drop (x.length - a.length - p.length)), ?_⟩
        have hy : y = (x ++ y).drop x.length := by simp
        conv_rhs => rw [hy, heq]
        rw [List.append_assoc, List.drop_append_eq_append_drop]
        have h1 : a.drop x.length = [] := List.drop_of_length_le (by omega)
        rw [h1, List.drop_append_eq_append_drop]
        simp

/-- Composition: no occurrence on either side and no straddling occurrence
means no occurrence in the concatenation. -/
theorem not_occurs_append {p x y : List Char}
    (hx : ¬ Occurs p x) (hy : ¬ Occurs p y)
    (hs : ∀ k, 0 < k → k < p.length → ¬ ((p.take k) <:+ x ∧ (p.drop k) <+: y)) :
    ¬ Occurs p (x ++ y) := by
  intro h
  rcases occurs_append_cases h with h1 | h2 | ⟨k, hk1, hk2, hk3⟩
  · exact hx h1
  · exact hy h2
  · exact hs k hk1 hk2 hk3

/-- Decidable bundle for the left side of `not_occurs_append` when the left
string is concrete: the pattern neither occurs in it nor ends a straddle
there. -/
def leftSafe (p x : List Char) : Bool :=
  !containsSub p x &&
    (List.range p.length).all (fun k => decide (k = 0) || !(p.take k).isSuffixOf x)

theorem not_occurs_append_left {p x y : List Char}
    (hx : leftSafe p x = true) (hy : ¬ Occurs p y) : ¬ Occurs p (x ++ y) := by
  have hx1 : containsSub p x = false := by
    have := (Bool.and_eq_true _ _).mp hx |>.1
    simpa using this
  have hx2 := (Bool.and_eq_true _ _).mp hx |>.2
  refine not_occurs_append (not_occurs_of_containsSub_eq_false hx1) hy ?_
  rintro k h0 hlt ⟨hsuf, -⟩
  have hk := List.all_eq_true.mp hx2 k (List.mem_range.mpr hlt)
  simp only [Bool.or_eq_true, decide_eq_true_eq, Bool.not_eq_true'] at hk
  rcases hk with hk | hk
  · omega
  · exact absurd (List.isSuffixOf_iff_suffix.mpr hsuf) (by simp [hk])

/-- Composition when the right side starts with a character that does not
appear in the pattern: straddles are impossible. -/
theorem not_occurs_append_cons {p x y : List Char} {c : Char}
    (hx : ¬ Occurs p x) (hc : c ∉ p) (hy : ¬ Occurs p (c :: y)) :
    ¬ Occurs p (x ++ (c :: y)) := by
  refine not_occurs_append hx hy ?_
  rintro k h0 hlt ⟨-, hpre⟩
  obtain ⟨d, ds, hds⟩ : ∃ d ds, p.drop k = d :: ds := by
    have : 0 < (p.drop k).length := by
      rw [List.length_drop]; omega
    cases hdk : p.drop k with
    | nil => rw [hdk] at this; simp at this
    | cons d ds => exact ⟨d, ds, rfl⟩
  rw [hds] at hpre
  have hd : d = c := (List.cons_prefix_cons.mp hpre).1
  apply hc
  rw [← hd]
  exact List.drop_subset k p (hds ▸ List.mem_cons_self d ds)

/-- Composition when every straddle-ending prefix of the pattern uses a
character absent from the left side. -/
theorem not_occurs_append_tfree {p x y : List Char}
    (hx : ¬ Occurs p x) (hy : ¬ Occurs p y)
    (hch : ∀ k, 0 < k → k < p.length → ∃ c, c ∈ p.take k ∧ c ∉ x) :
    ¬ Occurs p (x ++ y) := by
  refine not_occurs_append hx hy ?_
  rintro k h0 hlt ⟨hsuf, -⟩
  obtain ⟨c, hc1, hc2⟩ := hch k h0 hlt
  exact hc2 (hsuf.subset hc1)

theorem not_occurs_of_not_mem {p x : List Char} {c : Char}
    (hc : c ∈ p) (hx : c ∉ x) : ¬ Occurs p x := by
  rintro ⟨a, b, rfl⟩
  exact hx (by simp [hc])

/-! ## Trimming and comma splitting (Rust `str::trim`, `str::split(',')`,
`Vec::join(", ")`) -/

/-- Rust `str::trim` strips Unicode whitespace from both ends; the model uses
the core whitespace class, which covers every character the encoder can
produce. -/
def trimLeft (s : List Char) : List Char := s.dropWhile Char.isWhitespace

def trimRight (s : List Char) : List Char :=
  (s.reverse.dropWhile Char.isWhitespace).reverse

def trim (s : List Char) : List Char := trimRight (trimLeft s)

/-- Rust `str::split(',')`: splits at every comma; an input without commas
(including the empty input) yields a single piece. -/
def splitComma : List Char → List (List Char)
  | [] => [[]]
  | c :: t =>
    if c = ',' then [] :: splitComma t
    else
      match splitComma t with
      | [] => [[c]]
      | r :: rs => (c :: r) :: rs

/-- Rust `Vec::join(", ")`. -/
def tagsJoin : List String → String
  | [] => ""
  | [t] => t
  | t :: ts => t ++ ", " ++ tagsJoin ts

theorem splitComma_ne_nil (s : List Char) : splitComma s ≠ [] := by
  induction s with
  | nil => simp [splitComma]
  | cons c t ih =>
    rw [splitComma]
    split
    · simp
    · cases h : splitComma t with
      | nil => simp
      | cons r rs => simp

theorem splitComma_no_comma {x : List Char} (h : ',' ∉ x) : splitComma x = [x] := by
  induction x with
  | nil => rfl
  | cons c t ih =>
    have hc : ¬ c = ',' := fun hh => h (hh ▸ List.mem_cons_self c t)
    have ht := ih (fun hm => h (List.mem_cons_of_mem c hm))
    rw [splitComma]
    simp only [hc, if_false, ht]

theorem splitComma_append {x y : List Char} (h : ',' ∉ x) :
    splitComma (x ++ ',' :: y) = x :: splitComma y := by
  induction x with
  | nil => simp [splitComma]
  | cons c t ih =>
    have hc : ¬ c = ',' := fun hh => h (hh ▸ List.mem_cons_self c t)
    have ht := ih (fun hm => h (List.mem_cons_of_mem c hm))
    rw [List.cons_append, splitComma]
    simp only [hc, if_false, ht]

theorem trim_cons_space (x : List Char) : trim (' ' :: x) = trim x := by
  simp [trim, trimLeft, List.dropWhile]

theorem takeWhile_all {p : Char → Bool} {v : List Char}
    (hv : ∀ x ∈ v, p x = true) : v.takeWhile p = v := by
  induction v with
  | nil => rfl
  | cons c t ih =>
    rw [List.takeWhile_cons, hv c (List.mem_cons_self c t)]
    simp [ih (fun x hx => hv x (List.mem_cons_of_mem c hx))]

theorem takeWhile_append_not {p : Char → Bool} {v r : List Char} {c : Char}
    (hv : ∀ x ∈ v, p x = true) (hc : p c = false) :
    (v ++ c :: r).takeWhile p = v := by
  induction v with
  | nil => simp [List.takeWhile_cons, hc]
  | cons d t ih =>
    rw [List.cons_append, List.takeWhile_cons, hv d (List.mem_cons_self d t)]
    simp [ih (fun x hx => hv x (List.mem_cons_of_mem d hx))]

/-! ## Timestamps

The source stores `chrono::DateTime<Utc>` values.  The model represents an
instant as UTC calendar fields plus nanoseconds.  The formatter embeds
`DateTime::to_rfc3339` (canonical RFC-3339, `+00:00` offset, fractional
seconds printed with 3, 6 or 9 digits exactly when nonzero); the parsers
embed `DateTime::parse_from_rfc3339`, the two
`DateTime::parse_from_str` fallback formats and the
`NaiveDateTime::parse_from_str` fallback of `Memory::from_markdown`,
including the conversion `with_timezone(&Utc)` realised as calendar
shifting by the parsed offset.  Years are modelled in `0..=9999`, the
range the four-digit formats denote. -/

structure Timestamp where
  year : Nat
  month : Nat
  day : Nat
  hour : Nat
  minute : Nat
  second : Nat
  nano : Nat
deriving DecidableEq, Repr

def isLeap (y : Nat) : Bool := y % 4 == 0 && (y % 100 != 0 || y % 400 == 0)

def daysInMonth (y m : Nat) : Nat :=
  if m = 2 then (if isLeap y then 29 else 28)
  else if m = 4 ∨ m = 6 ∨ m = 9 ∨ m = 11 then 30
  else 31

/-- Calendar validity as enforced by chrono when building a date, plus the
four-digit year bound of the modelled formats. -/
def validFields (y mo d h mi s na : Nat) : Bool :=
  y ≤ 9999 && 1 ≤ mo && mo ≤ 12 && 1 ≤ d && d ≤ daysInMonth y mo &&
    h < 24 && mi < 60 && s < 60 && na < 1000000000

def ValidTs (t : Timestamp) : Prop :=
  validFields t.year t.month t.day t.hour t.minute t.second t.nano = true

instance decValidTs (t : Timestamp) : Decidable (ValidTs t) :=
  inferInstanceAs
    (Decidable (validFields t.year t.month t.day t.hour t.minute t.second t.nano = true))

def nextDay : Nat × Nat × Nat → Nat × Nat × Nat
  | (y, m, d) =>
    if d < daysInMonth y m then (y, m, d + 1)
    else if m < 12 then (y, m + 1, 1)
    else (y + 1, 1, 1)

def prevDay : Nat × Nat × Nat → Nat × Nat × Nat
  | (y, m, d) =>
    if 1 < d then (y, m, d - 1)
    else if 1 < m then (y, m - 1, daysInMonth y (m - 1))
    else if y = 0 then (0, 1, 1)
    else (y - 1, 12, 31)

def addDaysNat : Nat → Nat × Nat × Nat → Nat × Nat × Nat
  | 0, ymd => ymd
  | n + 1, ymd => addDaysNat n (nextDay ymd)

def subDaysNat : Nat → Nat × Nat × Nat → Nat × Nat × Nat
  | 0, ymd => ymd
  | n + 1, ymd => subDaysNat n (prevDay ymd)

def addDays (ymd : Nat × Nat × Nat) : Int → Nat × Nat × Nat
  | .ofNat n => addDaysNat n ymd
  | .negSucc n => subDaysNat (n + 1) ymd

/-- Shift an instant by a whole number of minutes (chrono offset
conversion). -/
def shiftMinutes (t : Timestamp) (k : Int) : Timestamp :=
  let tot : Int := ((t.hour * 60 + t.minute : Nat) : Int) + k
  let rem := (tot % 1440).toNat
  let ymd := addDays (t.year, t.month, t.day) (tot / 1440)
  { year := ymd.1, month := ymd.2.1, day := ymd.2.2,
    hour := rem / 60, minute := rem % 60, second := t.second, nano := t.nano }

theorem shiftMinutes_zero {t : Timestamp} (h : ValidTs t) :
    shiftMinutes t 0 = t := by
  obtain ⟨y, mo, d, hh, mi, s, na⟩ := t
  have hv := h
  simp only [ValidTs, validFields, Bool.and_eq_true, decide_eq_true_eq] at hv
  have hbound : hh * 60 + mi < 1440 := by omega
  have htot : ((hh * 60 + mi : Nat) : Int) + 0 = ((hh * 60 + mi : Nat) : Int) := by ring
  simp only [shiftMinutes, htot]
  have h1 : ((hh * 60 + mi : Nat) : Int) % 1440 = ((hh * 60 + mi : Nat) : Int) := by
    omega
  have h2 : ((hh * 60 + mi : Nat) : Int) / 1440 = 0 := by omega
  rw [h1, h2]
  have haddzero : addDays (y, mo, d) 0 = (y, mo, d) := rfl
  rw [haddzero]
  have hrem : (((hh * 60 + mi : Nat) : Int)).toNat = hh * 60 + mi := Int.toNat_natCast _
  rw [hrem]
  have hdiv : (hh * 60 + mi) / 60 = hh := by omega
  have hmod : (hh * 60 + mi) % 60 = mi := by omega
  rw [hdiv, hmod]

/-! ### Formatting (`DateTime::<Utc>::to_rfc3339`) -/

def digitChar (n : Nat) : Char := Char.ofNat (48 + min n 9)

def pad2 (n : Nat) : List Char := [digitChar (n / 10 % 10), digitChar (n % 10)]

def pad3 (n : Nat) : List Char :=
  [digitChar (n / 100 % 10), digitChar (n / 10 % 10), digitChar (n % 10)]

def pad4 (n : Nat) : List Char :=
  [digitChar (n / 1000 % 10), digitChar (n / 100 % 10),
    digitChar (n / 10 % 10), digitChar (n % 10)]

def pad6 (n : Nat) : List Char := pad3 (n / 1000) ++ pad3 (n % 1000)

def pad9 (n : Nat) : List Char := pad3 (n / 1000000) ++ pad6 (n % 1000000)

/-- chrono prints fractional seconds with `SecondsFormat::AutoSi`: nothing
when zero, else 3, 6 or 9 digits depending on the finest nonzero unit. -/
def fracAutoSi (nano : Nat) : List Char :=
  if nano = 0 then []
  else if nano % 1000000 = 0 then '.' :: pad3 (nano / 1000000)
  else if nano % 1000 = 0 then '.' :: pad6 (nano / 1000)
  else '.' :: pad9 nano

def fmtRfc3339 (t : Timestamp) : List Char :=
  pad4 t.year ++ '-' :: pad2 t.month ++ '-' :: pad2 t.day ++
    'T' :: pad2 t.hour ++ ':' :: pad2 t.minute ++ ':' :: pad2 t.second ++
    fracAutoSi t.nano ++ ['+', '0', '0', ':', '0', '0']

/-! ### Parsing primitives -/

def readDigit (c : Char) : Option Nat :=
  if '0' ≤ c ∧ c ≤ '9' then some (c.toNat - 48) else none

def readExactAux : Nat → Nat → List Char → Option (Nat × List Char)
  | 0, acc, s => some (acc, s)
  | _ + 1, _, [] => none
  | n + 1, acc, c :: t =>
    match readDigit c with
    | some d => readExactAux n (acc * 10 + d) t
    | none => none

/-- Read exactly `n` digits (fixed-width numeric fields of RFC-3339). -/
def readExactDigits (n : Nat) (s : List Char) : Option (Nat × List Char) :=
  readExactAux n 0 s

def readGreedyAux : Nat → Nat → List Char → Nat × List Char
  | 0, acc, s => (acc, s)
  | fuel + 1, acc, s =>
    match s with
    | [] => (acc, [])
    | c :: t =>
      match readDigit c with
      | some d => readGreedyAux fuel (acc * 10 + d) t
      | none => (acc, c :: t)

/-- Read at least one and at most `max` digits (chrono numeric items of the
`parse_from_str` formats). -/
def readNum (max : Nat) (s : List Char) : Option (Nat × List Char) :=
  match s with
  | [] => none
  | c :: t =>
    match readDigit c with
    | some d => some (readGreedyAux (max - 1) d t)
    | none => none

def digitsRun : List Char → List Nat × List Char
  | [] => ([], [])
  | c :: t =>
    match readDigit c with
    | some d =>
      match digitsRun t with
      | (ds, r) => (d :: ds, r)
    | none => ([], c :: t)

def nanosOf (ds : List Nat) : Nat :=
  ((ds.take 9).foldl (fun a d => a * 10 + d) 0) * 10 ^ (9 - min 9 ds.length)

/-- chrono `%.f` / the RFC-3339 fraction: optional; when present it is a dot
followed by at least one digit, scaled to nanoseconds. -/
def readDotFrac (s : List Char) : Option (Nat × List Char) :=
  match s with
  | '.' :: t =>
    match digitsRun t with
    | ([], _) => none
    | (ds, r) => some (nanosOf ds, r)
  | _ => some (0, s)

def expectChar (c : Char) (s : List Char) : Option (List Char) :=
  match s with
  | d :: t => if d = c then some t else none
  | [] => none

/-- The RFC-3339 date and time separator accepted by chrono. -/
def expectSep (s : List Char) : Option (List Char) :=
  match s with
  | d :: t => if d = 'T' ∨ d = 't' ∨ d = ' ' then some t else none
  | [] => none

/-- Numeric timezone offset, sign then two digits, optional colon, two
digits; `Z` accepted only on the RFC-3339 path.  Result in minutes. -/
def readOffsetCore (allowZ : Bool) (s : List Char) : Option (Int × List Char) :=
  match s with
  | [] => none
  | c :: t =>
    if (c = 'Z' ∨ c = 'z') ∧ allowZ then some (0, t)
    else if c = '+' ∨ c = '-' then
      match readExactDigits 2 t with
      | none => none
      | some (hh, t1) =>
        let t2 := match t1 with
          | ':' :: u => u
          | u => u
        match readExactDigits 2 t2 with
        | none => none
        | some (mm, t3) =>
          some (if c = '+' then (hh * 60 + mm : Nat) else -((hh * 60 + mm : Nat) : Int), t3)
    else none

/-! ### The four timestamp parsers tried by `Memory::from_markdown` -/

/-- `DateTime::parse_from_rfc3339`, followed by `with_timezone(&Utc)`. -/
def parseRfc3339 (s : List Char) : Option Timestamp := do
  let (y, s) ← readExactDigits 4 s
  let s ← expectChar '-' s
  let (mo, s) ← readExactDigits 2 s
  let s ← expectChar '-' s
  let (d, s) ← readExactDigits 2 s
  let s ← expectSep s
  let (h, s) ← readExactDigits 2 s
  let s ← expectChar ':' s
  let (mi, s) ← readExactDigits 2 s
  let s ← expectChar ':' s
  let (sec, s) ← readExactDigits 2 s
  let (na, s) ← readDotFrac s
  let (off, s) ← readOffsetCore true s
  if s = [] ∧ validFields y mo d h mi sec na then
    some (shiftMinutes ⟨y, mo, d, h, mi, sec, na⟩ (-off))
  else none

/-- `DateTime::parse_from_str(s, "%Y-%m-%d %H:%M:%S%.f %z")` followed by
`with_timezone(&Utc)`.  A literal space in a chrono format string consumes
any amount of whitespace (including none), and `%z` itself skips leading
whitespace. -/
def parseFmtB (s : List Char) : Option Timestamp := do
  let (y, s) ← readNum 4 s
  let s ← expectChar '-' s
  let (mo, s) ← readNum 2 s
  let s ← expectChar '-' s
  let (d, s) ← readNum 2 s
  let s := s.dropWhile Char.isWhitespace
  let (h, s) ← readNum 2 s
  let s ← expectChar ':' s
  let (mi, s) ← readNum 2 s
  let s ← expectChar ':' s
  let (sec, s) ← readNum 2 s
  let (na, s) ← readDotFrac s
  let (off, s) ← readOffsetCore false (s.dropWhile Char.isWhitespace)
  if s = [] ∧ validFields y mo d h mi sec na then
    some (shiftMinutes ⟨y, mo, d, h, mi, sec, na⟩ (-off))
  else none

/-- `DateTime::parse_from_str(s, "%Y-%m-%d %H:%M:%S %z")` followed by
`with_timezone(&Utc)`: as above but with no fractional-second item. -/
def parseFmtC (s : List Char) : Option Timestamp := do
  let (y, s) ← readNum 4 s
  let s ← expectChar '-' s
  let (mo, s) ← readNum 2 s
  let s ← expectChar '-' s
  let (d, s) ← readNum 2 s
  let s := s.dropWhile Char.isWhitespace
  let (h, s) ← readNum 2 s
  let s ← expectChar ':' s
  let (mi, s) ← readNum 2 s
  let s ← expectChar ':' s
  let (sec, s) ← readNum 2 s
  let (off, s) ← readOffsetCore false (s.dropWhile Char.isWhitespace)
  if s = [] ∧ validFields y mo d h mi sec 0 then
    some (shiftMinutes ⟨y, mo, d, h, mi, sec, 0⟩ (-off))
  else none

/-- `NaiveDateTime::parse_from_str(s, "%Y-%m-%d %H:%M:%S")` followed by
`DateTime::<Utc>::from_naive_utc_and_offset(dt, Utc)`: the naive fields are
taken as UTC unchanged. -/
def parseFmtD (s : List Char) : Option Timestamp := do
  let (y, s) ← readNum 4 s
  let s ← expectChar '-' s
  let (mo, s) ← readNum 2 s
  let s ← expectChar '-' s
  let (d, s) ← readNum 2 s
  let s := s.dropWhile Char.isWhitespace
  let (h, s) ← readNum 2 s
  let s ← expectChar ':' s
  let (mi, s) ← readNum 2 s
  let s ← expectChar ':' s
  let (sec, s) ← readNum 2 s
  if s = [] ∧ validFields y mo d h mi sec 0 then
    some ⟨y, mo, d, h, mi, sec, 0⟩
  else none

/-- The fallback chain of `Memory::from_markdown` (the source inlines this
match chain twice, once for `created_at` and once for `updated_at`, with
identical structure): RFC-3339 first, then the two `%z` formats, then the
naive format. -/
def parseChain (s : List Char) : Option Timestamp :=
  match parseRfc3339 s with
  | some t => some t
  | none =>
    match parseFmtB s with
    | some t => some t
    | none =>
      match parseFmtC s with
      | some t => some t
      | none => parseFmtD s

/-! ### Round-trip of the canonical format through the parsers -/

theorem readDigit_digitChar {d : Nat} (h : d < 10) :
    readDigit (digitChar d) = some d := by
  interval_cases d <;> rfl

theorem readExactDigits_pad2 {n : Nat} (h : n < 100) (r : List Char) :
    readExactDigits 2 (pad2 n ++ r) = some (n, r) := by
  have h1 : n / 10 % 10 < 10 := Nat.mod_lt _ (by omega)
  have h2 : n % 10 < 10 := Nat.mod_lt _ (by omega)
  simp only [readExactDigits, pad2, List.cons_append, List.nil_append, readExactAux,
    readDigit_digitChar h1, readDigit_digitChar h2]
  have : (0 * 10 + n / 10 % 10) * 10 + n % 10 = n := by omega
  rw [this]
  rfl

theorem readExactDigits_pad4 {n : Nat} (h : n < 10000) (r : List Char) :
    readExactDigits 4 (pad4 n ++ r) = some (n, r) := by
  have h1 : n / 1000 % 10 < 10 := Nat.mod_lt _ (by omega)
  have h2 : n / 100 % 10 < 10 := Nat.mod_lt _ (by omega)
  have h3 : n / 10 % 10 < 10 := Nat.mod_lt _ (by omega)
  have h4 : n % 10 < 10 := Nat.mod_lt _ (by omega)
  simp only [readExactDigits, pad4, List.cons_append, List.nil_append, readExactAux,
    readDigit_digitChar h1, readDigit_digitChar h2, readDigit_digitChar h3,
    readDigit_digitChar h4]
  have : (((0 * 10 + n / 1000 % 10) * 10 + n / 100 % 10) * 10 + n / 10 % 10) * 10 + n % 10
      = n := by omega
  rw [this]
  rfl

theorem expectChar_cons (c : Char) (r : List Char) : expectChar c (c :: r) = some r := by
  simp [expectChar]

theorem expectSep_T (r : List Char) : expectSep ('T' :: r) = some r := by
  simp [expectSep]

def digitList3 (m : Nat) : List Nat := [m / 100 % 10, m / 10 % 10, m % 10]

theorem pad3_eq_map (m : Nat) : pad3 m = (digitList3 m).map digitChar := rfl

theorem pad6_eq_map (m : Nat) :
    pad6 m = (digitList3 (m / 1000) ++ digitList3 (m % 1000)).map digitChar := by
  simp [pad6, pad3_eq_map]

theorem pad9_eq_map (m : Nat) :
    pad9 m = (digitList3 (m / 1000000) ++ (digitList3 (m % 1000000 / 1000)
      ++ digitList3 (m % 1000000 % 1000))).map digitChar := by
  simp [pad9, pad6_eq_map, pad3_eq_map]

theorem digitList3_lt (m : Nat) : ∀ d ∈ digitList3 m, d < 10 := by
  intro d hd
  simp only [digitList3, List.mem_cons, List.not_mem_nil, or_false] at hd
  rcases hd with rfl | rfl | rfl <;> exact Nat.mod_lt _ (by omega)

theorem digitsRun_stop (rest : List Char) :
    digitsRun ('+' :: rest) = ([], '+' :: rest) := rfl

theorem digitsRun_map_plus {ds : List Nat} (hds : ∀ d ∈ ds, d < 10) (rest : List Char) :
    digitsRun (ds.map digitChar ++ '+' :: rest) = (ds, '+' :: rest) := by
  induction ds with
  | nil => simp [digitsRun_stop]
  | cons d t ih =>
    have hd : d < 10 := hds d (List.mem_cons_self d t)
    have ht := ih (fun x hx => hds x (List.mem_cons_of_mem d hx))
    simp only [List.map_cons, List.cons_append, digitsRun, readDigit_digitChar hd,
      List.append_eq, ht]

theorem foldl_digitList3 (acc m : Nat) (h : m < 1000) :
    List.foldl (fun a d => a * 10 + d) acc (digitList3 m) = acc * 1000 + m := by
  simp only [digitList3, List.foldl_cons, List.foldl_nil]
  omega

/-- Parsing back the fractional seconds written by the formatter. -/
theorem readDotFrac_frac {na : Nat} (h : na < 1000000000) (rest : List Char) :
    readDotFrac (fracAutoSi na ++ '+' :: rest) = some (na, '+' :: rest) := by
  by_cases h0 : na = 0
  · subst h0
    simp [fracAutoSi, readDotFrac]
  · by_cases h6 : na % 1000000 = 0
    · have hk : na / 1000000 < 1000 := by omega
      simp only [fracAutoSi, h0, if_false, h6, if_true, List.cons_append]
      rw [readDotFrac, pad3_eq_map, digitsRun_map_plus (digitList3_lt _) rest]
      have hne : digitList3 (na / 1000000) = (na / 1000000) / 100 % 10
          :: [(na / 1000000) / 10 % 10, (na / 1000000) % 10] := rfl
      rw [hne]
      simp only [nanosOf]
      rw [← hne]
      have hlen : (digitList3 (na / 1000000)).length = 3 := rfl
      have htake : (digitList3 (na / 1000000)).take 9 = digitList3 (na / 1000000) :=
        List.take_of_length_le (by rw [hlen]; omega)
      rw [htake, hlen, foldl_digitList3 0 _ hk]
      have : (0 * 1000 + na / 1000000) * 10 ^ (9 - min 9 3) = na := by
        have : (10 : Nat) ^ (9 - min 9 3) = 1000000 := by norm_num
        rw [this]
        omega
      rw [this]
    · by_cases h3 : na % 1000 = 0
      · have hm : na / 1000 < 1000000 := by omega
        simp only [fracAutoSi, h0, if_false, h6, if_false, h3, if_true, List.cons_append]
        rw [readDotFrac, pad6_eq_map, digitsRun_map_plus
          (by intro d hd
              rcases List.mem_append.mp hd with hh | hh
              · exact digitList3_lt _ d hh
              · exact digitList3_lt _ d hh) rest]
        have hpos : digitList3 (na / 1000 / 1000) ++ digitList3 (na / 1000 % 1000) ≠ [] := by
          simp [digitList3]
        cases hd : digitList3 (na / 1000 / 1000) ++ digitList3 (na / 1000 % 1000) with
        | nil => exact absurd hd hpos
        | cons x xs =>
          rw [← hd]
          simp only [nanosOf]
          have hlen : (digitList3 (na / 1000 / 1000) ++ digitList3 (na / 1000 % 1000)).length
              = 6 := by simp [digitList3]
          have htake : (digitList3 (na / 1000 / 1000) ++ digitList3 (na / 1000 % 1000)).take 9
              = digitList3 (na / 1000 / 1000) ++ digitList3 (na / 1000 % 1000) :=
            List.take_of_length_le (by rw [hlen]; omega)
          rw [htake, hlen, List.foldl_append, foldl_digitList3 0 _ (by omega),
            foldl_digitList3 _ _ (by omega)]
          have hsplit : ((0 * 1000 + na / 1000 / 1000) * 1000 + na / 1000 % 1000)
              * 10 ^ (9 - min 9 6) = na := by
            have hpow : (10 : Nat) ^ (9 - min 9 6) = 1000 := by norm_num
            rw [hpow]
            omega
          rw [hsplit]
      · simp only [fracAutoSi, h0, if_false, h6, if_false, h3, if_false, List.cons_append]
        rw [readDotFrac, pad9_eq_map, digitsRun_map_plus
          (by intro d hd
              rcases List.mem_append.mp hd with hh | hh
              · exact digitList3_lt _ d hh
              · rcases List.mem_append.mp hh with hh2 | hh2
                · exact digitList3_lt _ d hh2
                · exact digitList3_lt _ d hh2) rest]
        have hpos : digitList3 (na / 1000000) ++ (digitList3 (na % 1000000 / 1000)
            ++ digitList3 (na % 1000000 % 1000)) ≠ [] := by
          simp [digitList3]
        cases hd : digitList3 (na / 1000000) ++ (digitList3 (na % 1000000 / 1000)
            ++ digitList3 (na % 1000000 % 1000)) with
        | nil => exact absurd hd hpos
        | cons x xs =>
          rw [← hd]
          simp only [nanosOf]
          have hlen : (digitList3 (na / 1000000) ++ (digitList3 (na % 1000000 / 1000)
              ++ digitList3 (na % 1000000 % 1000))).length = 9 := by simp [digitList3]
          have htake : (digitList3 (na / 1000000) ++ (digitList3 (na % 1000000 / 1000)
              ++ digitList3 (na % 1000000 % 1000))).take 9
              = digitList3 (na / 1000000) ++ (digitList3 (na % 1000000 / 1000)
              ++ digitList3 (na % 1000000 % 1000)) :=
            List.take_of_length_le (by rw [hlen])
          rw [htake, hlen, List.foldl_append, List.foldl_append,
            foldl_digitList3 0 _ (by omega), foldl_digitList3 _ _ (by omega),
            foldl_digitList3 _ _ (by omega)]
          have hfin : (((0 * 1000 + na / 1000000) * 1000 + na % 1000000 / 1000) * 1000
              + na % 1000000 % 1000) * 10 ^ (9 - min 9 9) = na := by
            have hpow : (10 : Nat) ^ (9 - min 9 9) = 1 := by norm_num
            rw [hpow]
            omega
          rw [hfin]

theorem readOffsetCore_canonical :
    readOffsetCore true ['+', '0', '0', ':', '0', '0'] = some (0, []) := by decide

theorem daysInMonth_le (y m : Nat) : daysInMonth y m ≤ 31 := by
  unfold daysInMonth
  split
  · split <;> omega
  · split <;> omega

theorem validFields_bounds {y mo d hh mi s na : Nat}
    (h : validFields y mo d hh mi s na = true) :
    y ≤ 9999 ∧ 1 ≤ mo ∧ mo ≤ 12 ∧ 1 ≤ d ∧ d ≤ 31 ∧
      hh < 24 ∧ mi < 60 ∧ s < 60 ∧ na < 1000000000 := by
  simp only [validFields, Bool.and_eq_true, decide_eq_true_eq] at h
  have := daysInMonth_le y mo
  omega

set_option maxHeartbeats 1600000 in
/-- The canonical RFC-3339 output of the formatter parses back to the same
instant via `parse_from_rfc3339`. -/
theorem parseRfc3339_fmt {t : Timestamp} (h : ValidTs t) :
    parseRfc3339 (fmtRfc3339 t) = some t := by
  obtain ⟨y, mo, d, hh, mi, s, na⟩ := t
  have hvf : validFields y mo d hh mi s na = true := h
  obtain ⟨b1, b2, b3, b4, b5, b6, b7, b8, b9⟩ := validFields_bounds hvf
  rw [fmtRfc3339, parseRfc3339]
  simp only [List.append_assoc, List.cons_append]
  rw [readExactDigits_pad4 (show y < 10000 by omega)]
  simp only [Option.bind_eq_bind, Option.some_bind]
  rw [expectChar_cons]
  simp only [Option.bind_eq_bind, Option.some_bind]
  rw [readExactDigits_pad2 (show mo < 100 by omega)]
  simp only [Option.bind_eq_bind, Option.some_bind]
  rw [expectChar_cons]
  simp only [Option.bind_eq_bind, Option.some_bind]
  rw [readExactDigits_pad2 (show d < 100 by omega)]
  simp only [Option.bind_eq_bind, Option.some_bind]
  rw [expectSep_T]
  simp only [Option.bind_eq_bind, Option.some_bind]
  rw [readExactDigits_pad2 (show hh < 100 by omega)]
  simp only [Option.bind_eq_bind, Option.some_bind]
  rw [expectChar_cons]
  simp only [Option.bind_eq_bind, Option.some_bind]
  rw [readExactDigits_pad2 (show mi < 100 by omega)]
  simp only [Option.bind_eq_bind, Option.some_bind]
  rw [expectChar_cons]
  simp only [Option.bind_eq_bind, Option.some_bind]
  rw [readExactDigits_pad2 (show s < 100 by omega)]
  simp only [Option.bind_eq_bind, Option.some_bind]
  rw [readDotFrac_frac (show na < 1000000000 by omega)]
  simp only [Option.bind_eq_bind, Option.some_bind]
  rw [readOffsetCore_canonical]
  simp only [Option.bind_eq_bind, Option.some_bind]
  have hcond : True ∧ (validFields y mo d hh mi s na = true) := ⟨trivial, hvf⟩
  rw [if_pos hcond]
  have : (-(0 : Int)) = 0 := by norm_num
  rw [this, shiftMinutes_zero h]

theorem parseChain_fmt {t : Timestamp} (h : ValidTs t) :
    parseChain (fmtRfc3339 t) = some t := by
  unfold parseChain
  rw [parseRfc3339_fmt h]

/-! ## The Memory record and the markdown encoding -/

structure Memory where
  id : String
  title : String
  content : String
  tags : List String
  created_at : Timestamp
  updated_at : Timestamp
deriving DecidableEq, Repr

/-- `MemoryError` of the source; the payload of the `Io` variant (an
`std::io::Error`) is not observed by any claim and is elided. -/
inductive MemoryError where
  | ioErr : MemoryError
  | notFound : String → MemoryError
  | invalidFormat : String → MemoryError
deriving DecidableEq, Repr

/-- `Memory::to_markdown`: YAML-style frontmatter then a blank line then the
body. -/
def to_markdown (m : Memory) : String :=
  "---\n" ++ "id: " ++ m.id ++ "\n" ++ "title: " ++ m.title ++ "\n" ++
    "tags: [" ++ tagsJoin m.tags ++ "]\n" ++
    "created_at: " ++ (fmtRfc3339 m.created_at).asString ++ "\n" ++
    "updated_at: " ++ (fmtRfc3339 m.updated_at).asString ++ "\n" ++
    "---\n\n" ++ m.content

/-- The behaviour of the frontmatter field regexes `id: (.*)`,
`title: (.*)`, `created_at: (.*)`, `updated_at: (.*)`: leftmost occurrence
of the key, capture to the end of the line (`.` does not match a
newline). -/
def captureLine (key : List Char) (fm : List Char) : Option (List Char) :=
  (splitFirst key fm).map (fun q => q.2.takeWhile (fun c => c != '\n'))

/-- The behaviour of the greedy tags regex `tags: \[(.*)\]` of
`Memory::from_markdown`: leftmost position where the whole pattern can
match — the key followed by a closing bracket later on the same line —
capturing up to the last bracket of that line (7 is the length of the
literal key). -/
def captureTagsG : List Char → Option (List Char)
  | [] => none
  | c :: t =>
    if ("tags: [".data).isPrefixOf (c :: t) then
      match splitLast [']'] (((c :: t).drop 7).takeWhile (fun x => x != '\n')) with
      | some q => some q.1
      | none => captureTagsG t
    else captureTagsG t

/-- The behaviour of the lazy tags regex `tags: \[(.*?)\]` of
`MemoryStore::try_fix_memory_file`: as above but capturing up to the first
bracket. -/
def captureTagsL : List Char → Option (List Char)
  | [] => none
  | c :: t =>
    if ("tags: [".data).isPrefixOf (c :: t) then
      match splitFirst [']'] (((c :: t).drop 7).takeWhile (fun x => x != '\n')) with
      | some q => some q.1
      | none => captureTagsL t
    else captureTagsL t

/-- The outer lazy regex `(?s)---\n(.*?)\n---\n\n(.*)` of
`Memory::from_markdown`: leftmost starting position, shortest frontmatter
group, rest of the input as body. -/
def outerLazy : List Char → Option (List Char × List Char)
  | [] => none
  | c :: t =>
    if ("---\n".data).isPrefixOf (c :: t) then
      match splitFirst ("\n---\n\n".data) ((c :: t).drop 4) with
      | some q => some q
      | none => outerLazy t
    else outerLazy t

/-- The outer greedy regex `(?s)---\n(.*)\n---\n\n(.*)` of
`MemoryStore::try_fix_memory_file`: leftmost starting position, longest
frontmatter group (last delimiter occurrence). -/
def outerGreedy : List Char → Option (List Char × List Char)
  | [] => none
  | c :: t =>
    if ("---\n".data).isPrefixOf (c :: t) then
      match splitLast ("\n---\n\n".data) ((c :: t).drop 4) with
      | some q => some q
      | none => outerGreedy t
    else outerGreedy t

/-- `Memory::from_markdown`. -/
def from_markdown (s : String) : Except MemoryError Memory :=
  match outerLazy s.data with
  | none => .error (.invalidFormat "Invalid markdown format")
  | some (fm, content) =>
    match captureLine "id: ".data fm with
    | none => .error (.invalidFormat "Missing id")
    | some i =>
      match captureLine "title: ".data fm with
      | none => .error (.invalidFormat "Missing title")
      | some ttl =>
        match captureTagsG fm with
        | none => .error (.invalidFormat "Missing tags")
        | some tg =>
          match captureLine "created_at: ".data fm with
          | none => .error (.invalidFormat "Missing created_at")
          | some ca =>
            match parseChain ca with
            | none =>
              .error (.invalidFormat ("Invalid created_at format: " ++ ca.asString))
            | some cts =>
              match captureLine "updated_at: ".data fm with
              | none => .error (.invalidFormat "Missing updated_at")
              | some ua =>
                match parseChain ua with
                | none =>
                  .error (.invalidFormat ("Invalid updated_at format: " ++ ua.asString))
                | some uts =>
                  .ok ⟨i.asString, ttl.asString, content.asString,
                    (splitComma tg).map (fun x => (trim x).asString), cts, uts⟩

/-- `MemoryStore::try_fix_memory_file`: permissive re-extraction of id,
title and tags, substituting `now` for both timestamps.  (The source calls
`Utc::now()` once per recovered file; the instant is passed here as an
explicit argument.) -/
def try_fix_memory_file (s : String) (now : Timestamp) : Option Memory :=
  match outerGreedy s.data with
  | none => none
  | some (fm, content) =>
    match captureLine "id: ".data fm with
    | none => none
    | some i =>
      match captureLine "title: ".data fm with
      | none => none
      | some ttl =>
        match captureTagsL fm with
        | none => none
        | some tg =>
          some ⟨i.asString, ttl.asString, content.asString,
            (splitComma tg).map (fun x => (trim x).asString), now, now⟩

deriving instance DecidableEq for Except

/-! ## Locating the frontmatter fields in an encoded document -/

theorem bne_nl_of_not_mem {v : List Char} (hv : '\n' ∉ v) :
    ∀ x ∈ v, (x != '\n') = true := by
  intro x hx
  simp only [bne_iff_ne, ne_eq]
  rintro rfl
  exact hv hx

theorem takeWhile_append_all {p : Char → Bool} {v w : List Char}
    (hv : ∀ x ∈ v, p x = true) :
    (v ++ w).takeWhile p = v ++ w.takeWhile p := by
  induction v with
  | nil => simp
  | cons c t ih =>
    rw [List.cons_append, List.takeWhile_cons, hv c (List.mem_cons_self c t)]
    simp [ih (fun x hx => hv x (List.mem_cons_of_mem c hx))]

/-- A field regex `key(.*)` captures the whole rest of the line at the first
occurrence of the key. -/
theorem captureLine_at {k : List Char} (a v r : List Char) (hkey : k ≠ [])
    (hocc : ¬ Occurs k (a ++ k.dropLast)) (hv : '\n' ∉ v) :
    captureLine k (a ++ (k ++ (v ++ '\n' :: r))) = some v := by
  have hsh : a ++ (k ++ (v ++ '\n' :: r)) = a ++ k ++ (v ++ '\n' :: r) := by
    simp [List.append_assoc]
  rw [hsh, captureLine, splitFirst_append hkey a _ hocc]
  simp only [Option.map_some']
  rw [takeWhile_append_not (bne_nl_of_not_mem hv) (by decide)]

/-- Variant for the last header line, which runs to the end of the
frontmatter. -/
theorem captureLine_end {k : List Char} (a v : List Char) (hkey : k ≠ [])
    (hocc : ¬ Occurs k (a ++ k.dropLast)) (hv : '\n' ∉ v) :
    captureLine k (a ++ (k ++ v)) = some v := by
  have hsh : a ++ (k ++ v) = a ++ k ++ v := by simp [List.append_assoc]
  rw [hsh, captureLine, splitFirst_append hkey a _ hocc]
  simp only [Option.map_some']
  rw [takeWhile_all (bne_nl_of_not_mem hv)]

theorem captureTagsG_skip {a r : List Char}
    (h : ¬ Occurs ("tags: [".data) (a ++ ("tags: [".data).dropLast)) :
    captureTagsG (a ++ ("tags: [".data ++ r)) = captureTagsG ("tags: [".data ++ r) := by
  induction a with
  | nil => rw [List.nil_append]
  | cons c t ih =>
    have hnp := not_prefix_cons (p := "tags: [".data) (by decide) c t r
      (by simpa using h)
    have harr : (c :: t) ++ ("tags: [".data ++ r) = c :: (t ++ ("tags: [".data ++ r)) := rfl
    rw [harr, captureTagsG]
    have hfalse : ("tags: [".data).isPrefixOf (c :: (t ++ ("tags: [".data ++ r))) = false := by
      have hre : c :: (t ++ ("tags: [".data ++ r)) = c :: t ++ "tags: [".data ++ r := by
        simp
      rw [hre]
      exact Bool.not_eq_true _ ▸ (by simpa using hnp)
    rw [hfalse]
    simp only [Bool.false_eq_true, if_false]
    exact ih (fun hocc => h (by simpa using occurs_mono_left c (by simpa using hocc)))

theorem captureTagsL_skip {a r : List Char}
    (h : ¬ Occurs ("tags: [".data) (a ++ ("tags: [".data).dropLast)) :
    captureTagsL (a ++ ("tags: [".data ++ r)) = captureTagsL ("tags: [".data ++ r) := by
  induction a with
  | nil => rw [List.nil_append]
  | cons c t ih =>
    have hnp := not_prefix_cons (p := "tags: [".data) (by decide) c t r
      (by simpa using h)
    have harr : (c :: t) ++ ("tags: [".data ++ r) = c :: (t ++ ("tags: [".data ++ r)) := rfl
    rw [harr, captureTagsL]
    have hfalse : ("tags: [".data).isPrefixOf (c :: (t ++ ("tags: [".data ++ r))) = false := by
      have hre : c :: (t ++ ("tags: [".data ++ r)) = c :: t ++ "tags: [".data ++ r := by
        simp
      rw [hre]
      exact Bool.not_eq_true _ ▸ (by simpa using hnp)
    rw [hfalse]
    simp only [Bool.false_eq_true, if_false]
    exact ih (fun hocc => h (by simpa using occurs_mono_left c (by simpa using hocc)))

theorem captureTagsG_at (v r : List Char) (hv : '\n' ∉ v) :
    captureTagsG ("tags: [".data ++ (v ++ (']' :: '\n' :: r))) = some v := by
  have hpref : ("tags: [".data).isPrefixOf ("tags: [".data ++ (v ++ (']' :: '\n' :: r)))
      = true := isPrefixOf_iff_exists.mpr ⟨_, rfl⟩
  have hcons : "tags: [".data ++ (v ++ (']' :: '\n' :: r))
      = 't' :: ('a' :: ('g' :: ('s' :: (':' :: (' ' :: ('[' :: (v ++ (']' :: '\n' :: r))))))))
      := rfl
  rw [hcons, captureTagsG, ← hcons, hpref]
  simp only [if_true]
  have hdrop : ("tags: [".data ++ (v ++ (']' :: '\n' :: r))).drop 7
      = v ++ (']' :: '\n' :: r) := by rw [hcons]; rfl
  rw [hdrop]
  rw [takeWhile_append_all (bne_nl_of_not_mem hv)]
  have htw : (']' :: '\n' :: r).takeWhile (fun x => x != '\n') = [']'] := by
    simp [List.takeWhile_cons]
  rw [htw]
  have hsl : splitLast [']'] (v ++ [']']) = some (v, []) := by
    have : v ++ [']'] = v ++ [']'] ++ [] := by simp
    rw [this]
    exact splitLast_append (by decide) v [] (by intro hocc; obtain ⟨x, y, hxy⟩ := hocc; simp at hxy)
  rw [hsl]

theorem captureTagsL_at (v r : List Char) (hv : '\n' ∉ v) (hrb : ']' ∉ v) :
    captureTagsL ("tags: [".data ++ (v ++ (']' :: '\n' :: r))) = some v := by
  have hpref : ("tags: [".data).isPrefixOf ("tags: [".data ++ (v ++ (']' :: '\n' :: r)))
      = true := isPrefixOf_iff_exists.mpr ⟨_, rfl⟩
  have hcons : "tags: [".data ++ (v ++ (']' :: '\n' :: r))
      = 't' :: ('a' :: ('g' :: ('s' :: (':' :: (' ' :: ('[' :: (v ++ (']' :: '\n' :: r))))))))
      := rfl
  rw [hcons, captureTagsL, ← hcons, hpref]
  simp only [if_true]
  have hdrop : ("tags: [".data ++ (v ++ (']' :: '\n' :: r))).drop 7
      = v ++ (']' :: '\n' :: r) := by rw [hcons]; rfl
  rw [hdrop]
  rw [takeWhile_append_all (bne_nl_of_not_mem hv)]
  have htw : (']' :: '\n' :: r).takeWhile (fun x => x != '\n') = [']'] := by
    simp [List.takeWhile_cons]
  rw [htw]
  have hsf : splitFirst [']'] (v ++ [']']) = some (v, []) := by
    have : v ++ [']'] = v ++ [']'] ++ [] := by simp
    rw [this]
    exact splitFirst_append (by decide) v []
      (by simpa using not_occurs_of_not_mem (List.mem_singleton.mpr rfl) hrb)
  rw [hsf]

theorem outerLazy_at (fm body : List Char)
    (h : ¬ Occurs ("\n---\n\n".data) (fm ++ ("\n---\n\n".data).dropLast)) :
    outerLazy ("---\n".data ++ (fm ++ ("\n---\n\n".data ++ body))) = some (fm, body) := by
  have hpref : ("---\n".data).isPrefixOf ("---\n".data ++ (fm ++ ("\n---\n\n".data ++ body)))
      = true := isPrefixOf_iff_exists.mpr ⟨_, rfl⟩
  have hcons : "---\n".data ++ (fm ++ ("\n---\n\n".data ++ body))
      = '-' :: ('-' :: ('-' :: ('\n' :: (fm ++ ("\n---\n\n".data ++ body))))) := rfl
  rw [hcons, outerLazy, ← hcons, hpref]
  simp only [if_true]
  have hdrop : ("---\n".data ++ (fm ++ ("\n---\n\n".data ++ body))).drop 4
      = fm ++ ("\n---\n\n".data ++ body) := by rw [hcons]; rfl
  rw [hdrop]
  have hsh : fm ++ ("\n---\n\n".data ++ body) = fm ++ "\n---\n\n".data ++ body := by
    simp [List.append_assoc]
  rw [hsh, splitFirst_append (by decide) fm body h]

theorem outerGreedy_at (fm body : List Char)
    (h : ¬ Occurs ("\n---\n\n".data) (("\n---\n\n".data).drop 1 ++ body)) :
    outerGreedy ("---\n".data ++ (fm ++ ("\n---\n\n".data ++ body))) = some (fm, body) := by
  have hpref : ("---\n".data).isPrefixOf ("---\n".data ++ (fm ++ ("\n---\n\n".data ++ body)))
      = true := isPrefixOf_iff_exists.mpr ⟨_, rfl⟩
  have hcons : "---\n".data ++ (fm ++ ("\n---\n\n".data ++ body))
      = '-' :: ('-' :: ('-' :: ('\n' :: (fm ++ ("\n---\n\n".data ++ body))))) := rfl
  rw [hcons, outerGreedy, ← hcons, hpref]
  simp only [if_true]
  have hdrop : ("---\n".data ++ (fm ++ ("\n---\n\n".data ++ body))).drop 4
      = fm ++ ("\n---\n\n".data ++ body) := by rw [hcons]; rfl
  rw [hdrop]
  have hsh : fm ++ ("\n---\n\n".data ++ body) = fm ++ "\n---\n\n".data ++ body := by
    simp [List.append_assoc]
  rw [hsh, splitLast_append (by decide) fm body h]

/-- Occurrences of the delimiter imply occurrences of a double newline. -/
theorem not_occurs_delim_of_no_dnl {s : List Char}
    (h : ¬ Occurs "\n\n".data s) : ¬ Occurs "\n---\n\n".data s := by
  intro hocc
  exact h (occurs_trans ⟨"\n---".data, [], by decide⟩ hocc)

/-- Straddle-free composition for the double-newline pattern over a
newline-free left part. -/
theorem no_dnl_append {x y : List Char} (hx : '\n' ∉ x)
    (hy : ¬ Occurs "\n\n".data y) : ¬ Occurs "\n\n".data (x ++ y) := by
  refine not_occurs_append_tfree (not_occurs_of_not_mem (by decide) hx) hy ?_
  intro k h0 h2
  have hlen : ("\n\n".data).length = 2 := rfl
  rw [hlen] at h2
  have hk : k = 1 := by omega
  subst hk
  exact ⟨'\n', by decide, hx⟩

/-- The frontmatter block produced by the encoder, with the five field
values abstract, built from its suffixes. -/
def restUpdated (ua : List Char) : List Char := "updated_at: ".data ++ ua

def restCreated (ca ua : List Char) : List Char :=
  "created_at: ".data ++ (ca ++ ('\n' :: restUpdated ua))

def restTags (tg ca ua : List Char) : List Char :=
  "tags: [".data ++ (tg ++ (']' :: '\n' :: restCreated ca ua))

def restTitle (ttl tg ca ua : List Char) : List Char :=
  "title: ".data ++ (ttl ++ ('\n' :: restTags tg ca ua))

def fmShape (i ttl tg ca ua : List Char) : List Char :=
  "id: ".data ++ (i ++ ('\n' :: restTitle ttl tg ca ua))

/-- A whole encoded document: frontmatter between delimiters, blank line,
body. -/
def docShape (i ttl tg ca ua body : List Char) : List Char :=
  "---\n".data ++ (fmShape i ttl tg ca ua ++ ("\n---\n\n".data ++ body))

theorem asString_data (l : List Char) : (l.asString).data = l := rfl

theorem data_lit_delim : "---\n".data = '-' :: '-' :: '-' :: '\n' :: [] := rfl

theorem data_lit_close : "---\n\n".data = '-' :: '-' :: '-' :: '\n' :: '\n' :: [] := rfl

theorem data_lit_delim2 : "\n---\n\n".data = '\n' :: '-' :: '-' :: '-' :: '\n' :: '\n' :: [] := rfl

theorem data_lit_id : "id: ".data = 'i' :: 'd' :: ':' :: ' ' :: [] := rfl

theorem data_lit_nl : "\n".data = '\n' :: [] := rfl

theorem data_lit_title : "title: ".data = 't' :: 'i' :: 't' :: 'l' :: 'e' :: ':' :: ' ' :: [] := rfl

theorem data_lit_tags : "tags: [".data = 't' :: 'a' :: 'g' :: 's' :: ':' :: ' ' :: '[' :: [] := rfl

theorem data_lit_rbnl : "]\n".data = ']' :: '\n' :: [] := rfl

theorem data_lit_created : "created_at: ".data
    = 'c' :: 'r' :: 'e' :: 'a' :: 't' :: 'e' :: 'd' :: '_' :: 'a' :: 't' :: ':' :: ' ' :: [] := rfl

theorem data_lit_updated : "updated_at: ".data
    = 'u' :: 'p' :: 'd' :: 'a' :: 't' :: 'e' :: 'd' :: '_' :: 'a' :: 't' :: ':' :: ' ' :: [] := rfl

/-- The encoder output, seen at the character level, is exactly a
`docShape`. -/
theorem to_markdown_data (m : Memory) :
    (to_markdown m).data = docShape m.id.data m.title.data (tagsJoin m.tags).data
      (fmtRfc3339 m.created_at) (fmtRfc3339 m.updated_at) m.content.data := by
  simp [to_markdown, docShape, fmShape, restTitle, restTags, restCreated, restUpdated,
    String.data_append, asString_data,
    data_lit_delim, data_lit_close, data_lit_delim2, data_lit_id, data_lit_nl,
    data_lit_title, data_lit_tags, data_lit_rbnl, data_lit_created, data_lit_updated,
    List.append_assoc, List.cons_append, List.nil_append]


theorem fm_extract_id (i ttl tg ca ua : List Char) (hiNL : '\n' ∉ i) :
    captureLine "id: ".data (fmShape i ttl tg ca ua) = some i := by
  have hocc : ¬ Occurs "id: ".data ([] ++ ("id: ".data).dropLast) := by
    have hbase := not_occurs_of_containsSub_eq_false
      (p := "id: ".data) (s := ("id: ".data).dropLast) (by decide)
    simpa using hbase
  have h := captureLine_at (k := "id: ".data) [] i (restTitle ttl tg ca ua)
    (by decide) hocc hiNL
  simpa [fmShape] using h

theorem fm_extract_title (i ttl tg ca ua : List Char) (htNL : '\n' ∉ ttl)
    (h1 : ¬ Occurs "title: ".data i) :
    captureLine "title: ".data (fmShape i ttl tg ca ua) = some ttl := by
  have hsh : fmShape i ttl tg ca ua
      = ("id: ".data ++ (i ++ ['\n'])) ++ ("title: ".data ++ (ttl ++ ('\n' ::
        restTags tg ca ua))) := by
    simp [fmShape, restTitle, List.append_assoc]
  rw [hsh]
  refine captureLine_at _ _ _ (by decide) ?_ htNL
  have e : ("id: ".data ++ (i ++ ['\n'])) ++ ("title: ".data).dropLast
      = "id: ".data ++ (i ++ ('\n' :: ("title: ".data).dropLast)) := by
    simp [List.append_assoc]
  rw [e]
  exact not_occurs_append_left (by decide)
    (not_occurs_append_cons h1 (by decide)
      (not_occurs_of_containsSub_eq_false (by decide)))

theorem fm_extract_tagsG (i ttl tg ca ua : List Char) (hgNL : '\n' ∉ tg)
    (h2 : ¬ Occurs "tags: [".data i) (h3 : ¬ Occurs "tags: [".data ttl) :
    captureTagsG (fmShape i ttl tg ca ua) = some tg := by
  have hsh : fmShape i ttl tg ca ua
      = ("id: ".data ++ (i ++ ('\n' :: ("title: ".data ++ (ttl ++ ['\n'])))))
        ++ ("tags: [".data ++ (tg ++ (']' :: '\n' :: restCreated ca ua))) := by
    simp [fmShape, restTitle, restTags, List.append_assoc]
  rw [hsh]
  have hocc : ¬ Occurs ("tags: [".data)
      (("id: ".data ++ (i ++ ('\n' :: ("title: ".data ++ (ttl ++ ['\n'])))))
        ++ ("tags: [".data).dropLast) := by
    have e : ("id: ".data ++ (i ++ ('\n' :: ("title: ".data ++ (ttl ++ ['\n'])))))
        ++ ("tags: [".data).dropLast
        = "id: ".data ++ (i ++ ('\n' :: ("title: ".data ++ (ttl ++ ('\n' ::
          ("tags: [".data).dropLast))))) := by
      simp [List.append_assoc]
    rw [e]
    refine not_occurs_append_left (by decide) ?_
    refine not_occurs_append_cons h2 (by decide) ?_
    exact not_occurs_append_left (x := '\n' :: "title: ".data)
      (y := ttl ++ ('\n' :: ("tags: [".data).dropLast)) (by decide)
      (not_occurs_append_cons h3 (by decide)
        (not_occurs_of_containsSub_eq_false (by decide)))
  rw [captureTagsG_skip hocc]
  exact captureTagsG_at tg _ hgNL

theorem fm_extract_tagsL (i ttl tg ca ua : List Char) (hgNL : '\n' ∉ tg)
    (hgRB : ']' ∉ tg)
    (h2 : ¬ Occurs "tags: [".data i) (h3 : ¬ Occurs "tags: [".data ttl) :
    captureTagsL (fmShape i ttl tg ca ua) = some tg := by
  have hsh : fmShape i ttl tg ca ua
      = ("id: ".data ++ (i ++ ('\n' :: ("title: ".data ++ (ttl ++ ['\n'])))))
        ++ ("tags: [".data ++ (tg ++ (']' :: '\n' :: restCreated ca ua))) := by
    simp [fmShape, restTitle, restTags, List.append_assoc]
  rw [hsh]
  have hocc : ¬ Occurs ("tags: [".data)
      (("id: ".data ++ (i ++ ('\n' :: ("title: ".data ++ (ttl ++ ['\n'])))))
        ++ ("tags: [".data).dropLast) := by
    have e : ("id: ".data ++ (i ++ ('\n' :: ("title: ".data ++ (ttl ++ ['\n'])))))
        ++ ("tags: [".data).dropLast
        = "id: ".data ++ (i ++ ('\n' :: ("title: ".data ++ (ttl ++ ('\n' ::
          ("tags: [".data).dropLast))))) := by
      simp [List.append_assoc]
    rw [e]
    refine not_occurs_append_left (by decide) ?_
    refine not_occurs_append_cons h2 (by decide) ?_
    exact not_occurs_append_left (x := '\n' :: "title: ".data)
      (y := ttl ++ ('\n' :: ("tags: [".data).dropLast)) (by decide)
      (not_occurs_append_cons h3 (by decide)
        (not_occurs_of_containsSub_eq_false (by decide)))
  rw [captureTagsL_skip hocc]
  exact captureTagsL_at tg _ hgNL hgRB

theorem fm_extract_created (i ttl tg ca ua : List Char) (hcaNL : '\n' ∉ ca)
    (h4 : ¬ Occurs "created_at: ".data i) (h5 : ¬ Occurs "created_at: ".data ttl)
    (h6 : ¬ Occurs "created_at: ".data tg) :
    captureLine "created_at: ".data (fmShape i ttl tg ca ua) = some ca := by
  have hsh : fmShape i ttl tg ca ua
      = ("id: ".data ++ (i ++ ('\n' :: ("title: ".data ++ (ttl ++ ('\n' ::
          ("tags: [".data ++ (tg ++ [']', '\n']))))))))
        ++ ("created_at: ".data ++ (ca ++ ('\n' :: restUpdated ua))) := by
    simp [fmShape, restTitle, restTags, restCreated, List.append_assoc]
  rw [hsh]
  refine captureLine_at _ _ _ (by decide) ?_ hcaNL
  have e : ("id: ".data ++ (i ++ ('\n' :: ("title: ".data ++ (ttl ++ ('\n' ::
        ("tags: [".data ++ (tg ++ [']', '\n']))))))))
        ++ ("created_at: ".data).dropLast
      = "id: ".data ++ (i ++ ('\n' :: ("title: ".data ++ (ttl ++ ('\n' ::
        ("tags: [".data ++ (tg ++ (']' :: ('\n' ::
          ("created_at: ".data).dropLast))))))))) := by
    simp [List.append_assoc]
  rw [e]
  refine not_occurs_append_left (by decide) ?_
  refine not_occurs_append_cons h4 (by decide) ?_
  refine not_occurs_append_left (x := '\n' :: "title: ".data)
    (y := ttl ++ ('\n' :: ("tags: [".data ++ (tg ++ (']' :: ('\n' ::
      ("created_at: ".data).dropLast)))))) (by decide) ?_
  refine not_occurs_append_cons h5 (by decide) ?_
  refine not_occurs_append_left (x := '\n' :: "tags: [".data)
    (y := tg ++ (']' :: ('\n' :: ("created_at: ".data).dropLast))) (by decide) ?_
  refine not_occurs_append_cons h6 (by decide) ?_
  exact not_occurs_of_containsSub_eq_false (by decide)

theorem fm_extract_updated (i ttl tg ca ua : List Char) (huaNL : '\n' ∉ ua)
    (h7 : ¬ Occurs "updated_at: ".data i) (h8 : ¬ Occurs "updated_at: ".data ttl)
    (h9 : ¬ Occurs "updated_at: ".data tg) (h10 : ¬ Occurs "updated_at: ".data ca) :
    captureLine "updated_at: ".data (fmShape i ttl tg ca ua) = some ua := by
  have hsh : fmShape i ttl tg ca ua
      = ("id: ".data ++ (i ++ ('\n' :: ("title: ".data ++ (ttl ++ ('\n' ::
          ("tags: [".data ++ (tg ++ (']' :: ('\n' :: ("created_at: ".data ++
            (ca ++ ['\n']))))))))))))
        ++ ("updated_at: ".data ++ ua) := by
    simp [fmShape, restTitle, restTags, restCreated, restUpdated, List.append_assoc]
  rw [hsh]
  refine captureLine_end _ _ (by decide) ?_ huaNL
  have e : ("id: ".data ++ (i ++ ('\n' :: ("title: ".data ++ (ttl ++ ('\n' ::
        ("tags: [".data ++ (tg ++ (']' :: ('\n' :: ("created_at: ".data ++
          (ca ++ ['\n']))))))))))))
        ++ ("updated_at: ".data).dropLast
      = "id: ".data ++ (i ++ ('\n' :: ("title: ".data ++ (ttl ++ ('\n' ::
        ("tags: [".data ++ (tg ++ (']' :: ('\n' :: ("created_at: ".data ++
          (ca ++ ('\n' :: ("updated_at: ".data).dropLast)))))))))))) := by
    simp [List.append_assoc]
  rw [e]
  refine not_occurs_append_left (by decide) ?_
  refine not_occurs_append_cons h7 (by decide) ?_
  refine not_occurs_append_left (x := '\n' :: "title: ".data)
    (y := ttl ++ ('\n' :: ("tags: [".data ++ (tg ++ (']' :: ('\n' ::
      ("created_at: ".data ++ (ca ++ ('\n' ::
        ("updated_at: ".data).dropLast))))))))) (by decide) ?_
  refine not_occurs_append_cons h8 (by decide) ?_
  refine not_occurs_append_left (x := '\n' :: "tags: [".data)
    (y := tg ++ (']' :: ('\n' :: ("created_at: ".data ++ (ca ++ ('\n' ::
      ("updated_at: ".data).dropLast)))))) (by decide) ?_
  refine not_occurs_append_cons h9 (by decide) ?_
  refine not_occurs_append_left (x := ']' :: ('\n' :: "created_at: ".data))
    (y := ca ++ ('\n' :: ("updated_at: ".data).dropLast)) (by decide) ?_
  refine not_occurs_append_cons h10 (by decide) ?_
  exact not_occurs_of_containsSub_eq_false (by decide)

theorem fmShape_no_delim (i ttl tg ca ua : List Char)
    (hiNL : '\n' ∉ i) (htNL : '\n' ∉ ttl) (hgNL : '\n' ∉ tg)
    (hcaNL : '\n' ∉ ca) (huaNL : '\n' ∉ ua) :
    ¬ Occurs "\n---\n\n".data
      (fmShape i ttl tg ca ua ++ ("\n---\n\n".data).dropLast) := by
  apply not_occurs_delim_of_no_dnl
  have e : fmShape i ttl tg ca ua ++ ("\n---\n\n".data).dropLast
      = "id: ".data ++ (i ++ ('\n' :: ("title: ".data ++ (ttl ++ ('\n' ::
        ("tags: [".data ++ (tg ++ (']' :: ('\n' :: ("created_at: ".data ++
          (ca ++ ('\n' :: ("updated_at: ".data ++ (ua ++
            ("\n---\n\n".data).dropLast)))))))))))))) := by
    simp [fmShape, restTitle, restTags, restCreated, restUpdated, List.append_assoc]
  rw [e]
  refine not_occurs_append_left (by decide) ?_
  refine no_dnl_append hiNL ?_
  refine not_occurs_append_left (x := '\n' :: "title: ".data)
    (y := ttl ++ ('\n' :: ("tags: [".data ++ (tg ++ (']' :: ('\n' ::
      ("created_at: ".data ++ (ca ++ ('\n' :: ("updated_at: ".data ++ (ua ++
        ("\n---\n\n".data).dropLast))))))))))) (by decide) ?_
  refine no_dnl_append htNL ?_
  refine not_occurs_append_left (x := '\n' :: "tags: [".data)
    (y := tg ++ (']' :: ('\n' :: ("created_at: ".data ++ (ca ++ ('\n' ::
      ("updated_at: ".data ++ (ua ++ ("\n---\n\n".data).dropLast)))))))) (by decide) ?_
  refine no_dnl_append hgNL ?_
  refine not_occurs_append_left (x := ']' :: ('\n' :: "created_at: ".data))
    (y := ca ++ ('\n' :: ("updated_at: ".data ++ (ua ++
      ("\n---\n\n".data).dropLast)))) (by decide) ?_
  refine no_dnl_append hcaNL ?_
  refine not_occurs_append_left (x := '\n' :: "updated_at: ".data)
    (y := ua ++ ("\n---\n\n".data).dropLast) (by decide) ?_
  refine no_dnl_append huaNL ?_
  exact not_occurs_of_containsSub_eq_false (by decide)

/-! ### Character inventory of the canonical timestamp format -/

theorem digitChar_mem (n : Nat) : digitChar n ∈ "0123456789".data := by
  unfold digitChar
  have h : min n 9 ≤ 9 := by omega
  interval_cases h2 : min n 9 <;> decide

theorem data_lit_digits :
    "0123456789".data = ['0', '1', '2', '3', '4'] ++ ['5', '6', '7', '8', '9'] := rfl

theorem data_lit_tsChars : "0123456789-:T.+".data
    = ['0', '1', '2', '3', '4'] ++ ['5', '6', '7', '8', '9', '-', ':', 'T', '.', '+'] := rfl

theorem digits_sub_full {c : Char} (h : c ∈ "0123456789".data) :
    c ∈ "0123456789-:T.+".data := by
  rw [data_lit_digits] at h
  rw [data_lit_tsChars]
  simp only [List.mem_append] at h ⊢
  rcases h with h | h
  · exact Or.inl h
  · fin_cases h <;> decide

theorem pad2_sub {n : Nat} {c : Char} (h : c ∈ pad2 n) : c ∈ "0123456789".data := by
  simp only [pad2, List.mem_cons, List.not_mem_nil, or_false] at h
  rcases h with rfl | rfl <;> exact digitChar_mem _

theorem pad3_sub {n : Nat} {c : Char} (h : c ∈ pad3 n) : c ∈ "0123456789".data := by
  simp only [pad3, List.mem_cons, List.not_mem_nil, or_false] at h
  rcases h with rfl | rfl | rfl <;> exact digitChar_mem _

theorem pad4_sub {n : Nat} {c : Char} (h : c ∈ pad4 n) : c ∈ "0123456789".data := by
  simp only [pad4, List.mem_cons, List.not_mem_nil, or_false] at h
  rcases h with rfl | rfl | rfl | rfl <;> exact digitChar_mem _

theorem frac_sub {n : Nat} {c : Char} (h : c ∈ fracAutoSi n) :
    c ∈ "0123456789-:T.+".data := by
  unfold fracAutoSi at h
  split at h
  · simp at h
  · split at h
    · rcases List.mem_cons.mp h with rfl | h
      · decide
      · exact digits_sub_full (pad3_sub h)
    · split at h
      · rcases List.mem_cons.mp h with rfl | h
        · decide
        · have h2 : c ∈ pad3 (n / 1000 / 1000) ∨ c ∈ pad3 (n / 1000 % 1000) := by
            simpa [pad6] using h
          rcases h2 with h3 | h3 <;> exact digits_sub_full (pad3_sub h3)
      · rcases List.mem_cons.mp h with rfl | h
        · decide
        · have h2 : c ∈ pad3 (n / 1000000) ∨ c ∈ pad3 (n % 1000000 / 1000)
              ∨ c ∈ pad3 (n % 1000000 % 1000) := by
            simpa [pad9, pad6, List.append_assoc] using h
          rcases h2 with h3 | h3 | h3 <;> exact digits_sub_full (pad3_sub h3)

theorem fmt_charset {t : Timestamp} :
    ∀ c ∈ fmtRfc3339 t, c ∈ "0123456789-:T.+".data := by
  intro c hc
  rw [fmtRfc3339] at hc
  rcases List.mem_append.mp hc with h | h
  swap
  · simp only [List.mem_cons, List.not_mem_nil, or_false] at h
    rcases h with rfl | rfl | rfl | rfl | rfl | rfl <;> decide
  rcases List.mem_append.mp h with h | h
  swap
  · exact frac_sub h
  rcases List.mem_append.mp h with h | h
  swap
  · rcases List.mem_cons.mp h with rfl | h
    · decide
    · exact digits_sub_full (pad2_sub h)
  rcases List.mem_append.mp h with h | h
  swap
  · rcases List.mem_cons.mp h with rfl | h
    · decide
    · exact digits_sub_full (pad2_sub h)
  rcases List.mem_append.mp h with h | h
  swap
  · rcases List.mem_cons.mp h with rfl | h
    · decide
    · exact digits_sub_full (pad2_sub h)
  rcases List.mem_append.mp h with h | h
  swap
  · rcases List.mem_cons.mp h with rfl | h
    · decide
    · exact digits_sub_full (pad2_sub h)
  rcases List.mem_append.mp h with h | h
  · exact digits_sub_full (pad4_sub h)
  · rcases List.mem_cons.mp h with rfl | h
    · decide
    · exact digits_sub_full (pad2_sub h)

theorem fmt_no_nl {t : Timestamp} : '\n' ∉ fmtRfc3339 t := by
  intro h
  have h2 := fmt_charset _ h
  rw [data_lit_tsChars] at h2
  exact absurd h2 (by decide)

theorem fmt_no_updated {t : Timestamp} :
    ¬ Occurs "updated_at: ".data (fmtRfc3339 t) := by
  refine not_occurs_of_not_mem (c := 'u') (by decide) ?_
  intro h
  have h2 := fmt_charset _ h
  rw [data_lit_tsChars] at h2
  exact absurd h2 (by decide)

theorem asString_data_self (s : String) : (s.data).asString = s := rfl

theorem tagsJoin_no_char {c : Char} (hc1 : c ≠ ',') (hc2 : c ≠ ' ') :
    ∀ ts : List String, (∀ u ∈ ts, c ∉ u.data) → c ∉ (tagsJoin ts).data := by
  intro ts
  induction ts with
  | nil => intro _ h; simp [tagsJoin] at h
  | cons t rest ih =>
    intro hall
    cases rest with
    | nil =>
      simpa [tagsJoin] using hall t (List.mem_cons_self t [])
    | cons u us =>
      intro hmem
      rw [show tagsJoin (t :: u :: us) = t ++ ", " ++ tagsJoin (u :: us) from rfl] at hmem
      simp only [String.data_append, List.mem_append] at hmem
      rcases hmem with (hmem | hmem) | hmem
      · exact hall t (List.mem_cons_self t _) hmem
      · rcases (by simpa using hmem : c = ',' ∨ c = ' ') with rfl | rfl
        · exact hc1 rfl
        · exact hc2 rfl
      · exact ih (fun v hv => hall v (List.mem_cons_of_mem t hv)) hmem

theorem splitComma_tagsJoin :
    ∀ (ts : List String) (t : String), (∀ u ∈ t :: ts, ',' ∉ u.data) →
      splitComma ((tagsJoin (t :: ts)).data)
        = t.data :: ts.map (fun u => ' ' :: u.data) := by
  intro ts
  induction ts with
  | nil =>
    intro t h
    rw [show tagsJoin [t] = t from rfl,
      splitComma_no_comma (h t (List.mem_cons_self t []))]
    rfl
  | cons u us ih =>
    intro t h
    have hd : (tagsJoin (t :: u :: us)).data
        = t.data ++ (',' :: ' ' :: (tagsJoin (u :: us)).data) := by
      rw [show tagsJoin (t :: u :: us) = t ++ ", " ++ tagsJoin (u :: us) from rfl]
      simp [String.data_append, List.append_assoc]
    rw [hd, splitComma_append (h t (List.mem_cons_self t _))]
    have hrest := ih u (fun v hv => h v (List.mem_cons_of_mem t hv))
    have hsp : splitComma (' ' :: (tagsJoin (u :: us)).data)
        = (' ' :: u.data) :: us.map (fun v => ' ' :: v.data) := by
      rw [splitComma, if_neg (by decide), hrest]
    rw [hsp]
    rfl

/-- Decoding an encoded record, for any record whose fields respect the
header syntax: single-line id/title/joined tags that do not embed a later
header key.  The tag list comes back as the comma-split of the joined tags,
trimmed. -/
theorem decode_encode_general (m : Memory)
    (hiNL : '\n' ∉ m.id.data) (htNL : '\n' ∉ m.title.data)
    (hgNL : '\n' ∉ (tagsJoin m.tags).data)
    (s1 : ¬ Occurs "title: ".data m.id.data)
    (s2 : ¬ Occurs "tags: [".data m.id.data)
    (s3 : ¬ Occurs "tags: [".data m.title.data)
    (s4 : ¬ Occurs "created_at: ".data m.id.data)
    (s5 : ¬ Occurs "created_at: ".data m.title.data)
    (s6 : ¬ Occurs "created_at: ".data (tagsJoin m.tags).data)
    (s7 : ¬ Occurs "updated_at: ".data m.id.data)
    (s8 : ¬ Occurs "updated_at: ".data m.title.data)
    (s9 : ¬ Occurs "updated_at: ".data (tagsJoin m.tags).data)
    (hc : ValidTs m.created_at) (hu : ValidTs m.updated_at) :
    from_markdown (to_markdown m)
      = .ok { m with
          tags := ((splitComma (tagsJoin m.tags).data).map (fun x => (trim x).asString)) }
      := by
  have hdelim := fmShape_no_delim m.id.data m.title.data (tagsJoin m.tags).data
    (fmtRfc3339 m.created_at) (fmtRfc3339 m.updated_at)
    hiNL htNL hgNL fmt_no_nl fmt_no_nl
  simp only [from_markdown, to_markdown_data, docShape,
    outerLazy_at (fmShape m.id.data m.title.data (tagsJoin m.tags).data
      (fmtRfc3339 m.created_at) (fmtRfc3339 m.updated_at)) m.content.data hdelim,
    fm_extract_id m.id.data m.title.data (tagsJoin m.tags).data
      (fmtRfc3339 m.created_at) (fmtRfc3339 m.updated_at) hiNL,
    fm_extract_title m.id.data m.title.data (tagsJoin m.tags).data
      (fmtRfc3339 m.created_at) (fmtRfc3339 m.updated_at) htNL s1,
    fm_extract_tagsG m.id.data m.title.data (tagsJoin m.tags).data
      (fmtRfc3339 m.created_at) (fmtRfc3339 m.updated_at) hgNL s2 s3,
    fm_extract_created m.id.data m.title.data (tagsJoin m.tags).data
      (fmtRfc3339 m.created_at) (fmtRfc3339 m.updated_at) fmt_no_nl s4 s5 s6,
    fm_extract_updated m.id.data m.title.data (tagsJoin m.tags).data
      (fmtRfc3339 m.created_at) (fmtRfc3339 m.updated_at) fmt_no_nl s7 s8 s9
      fmt_no_updated,
    parseChain_fmt hc, parseChain_fmt hu,
    asString_data_self]

/-! ## The document store

`MemoryStore` owns one base directory.  The filesystem state visible to the
store is whether that directory exists plus the directory's files, an
association list (directory order) from file name to contents.  Each
operation is a function from this state, returning its result and the new
state; the source's blocking I/O failure modes that the claims do not
mention (permission errors and the like) are outside the model. -/

structure FS where
  dirExists : Bool
  files : List (String × String)
deriving DecidableEq, Repr

def lookupFile (n : String) : List (String × String) → Option String
  | [] => none
  | (k, v) :: t => if k = n then some v else lookupFile n t

/-- `File::create` then `write_all`: create-or-truncate. -/
def setFile (n c : String) : List (String × String) → List (String × String)
  | [] => [(n, c)]
  | (k, v) :: t => if k = n then (k, c) :: t else (k, v) :: setFile n c t

def removeFile (n : String) : List (String × String) → List (String × String)
  | [] => []
  | (k, v) :: t => if k = n then t else (k, v) :: removeFile n t

/-- `MemoryStore::get_memory_path`, relative to the base directory. -/
def get_memory_path (id : String) : String := id ++ ".md"

/-- `path.extension() == Some("md")`: the name ends in `.md` with a
nonempty stem. -/
def isMdFile (n : String) : Bool :=
  3 < n.data.length && (".md".data).isSuffixOf n.data

/-- `MemoryStore::save`: encodes and writes to `id`'s file.  `File::create`
fails when the containing directory does not exist; no directory is
created on this path. -/
def save (m : Memory) (fs : FS) : Except MemoryError Unit × FS :=
  if fs.dirExists then
    (.ok (), { fs with files := setFile (get_memory_path m.id) (to_markdown m) fs.files })
  else (.error .ioErr, fs)

/-- `MemoryStore::get`: `NotFound` when the path does not exist (whether
because the file or the whole directory is missing), otherwise strict
decode.  Reads only — the state is unchanged, so none is returned. -/
def get (id : String) (fs : FS) : Except MemoryError Memory :=
  if fs.dirExists then
    match lookupFile (get_memory_path id) fs.files with
    | some content => from_markdown content
    | none => .error (.notFound id)
  else .error (.notFound id)

/-- `MemoryStore::delete`. -/
def delete (id : String) (fs : FS) : Except MemoryError Unit × FS :=
  if fs.dirExists then
    match lookupFile (get_memory_path id) fs.files with
    | some _ => (.ok (), { fs with files := removeFile (get_memory_path id) fs.files })
    | none => (.error (.notFound id), fs)
  else (.error (.notFound id), fs)

/-- One directory entry of `MemoryStore::list`: skip non-`.md` entries;
strict decode; on failure attempt recovery and include the result when it
succeeds, else skip silently. -/
def listEntry (now : Timestamp) (nc : String × String) : List Memory :=
  if isMdFile nc.1 then
    match from_markdown nc.2 with
    | .ok m => [m]
    | .error _ =>
      match try_fix_memory_file nc.2 now with
      | some m => [m]
      | none => []
  else []

/-- `MemoryStore::list`: creates the base directory when absent (returning
no records), otherwise scans the directory in order. -/
def list (fs : FS) (now : Timestamp) : Except MemoryError (List Memory) × FS :=
  if fs.dirExists then
    (.ok ((fs.files.map (listEntry now)).flatten), fs)
  else
    (.ok [], { fs with dirExists := true })

/-- Rust `str::to_lowercase`, character by character. -/
def lowerStr (s : String) : String := (s.data.map Char.toLower).asString

/-- `MemoryStore::search`: list, then keep the records whose lowered
title, content or some lowered tag contains the lowered query. -/
def search (q : String) (fs : FS) (now : Timestamp) :
    Except MemoryError (List Memory) × FS :=
  match list fs now with
  | (.ok ms, fs2) =>
    (.ok (ms.filter (fun m =>
      containsSub (lowerStr q).data (lowerStr m.title).data ||
      containsSub (lowerStr q).data (lowerStr m.content).data ||
      m.tags.any (fun t => containsSub (lowerStr q).data (lowerStr t).data))), fs2)
  | (.error e, fs2) => (.error e, fs2)

/-- `MemoryStore::search_by_tag`: list, then keep the records with a tag
equal to the query up to lowercasing. -/
def search_by_tag (tag : String) (fs : FS) (now : Timestamp) :
    Except MemoryError (List Memory) × FS :=
  match list fs now with
  | (.ok ms, fs2) =>
    (.ok (ms.filter (fun m => m.tags.any (fun t => lowerStr t == lowerStr tag))), fs2)
  | (.error e, fs2) => (.error e, fs2)

/-- The error test of `MemoryStore::fix_invalid_memory_files`:
`msg.contains("Invalid created_at format") || msg.contains("Invalid
updated_at format")`. -/
def isTimestampMsg (e : MemoryError) : Bool :=
  match e with
  | .invalidFormat msg =>
    containsSub ("Invalid created_at format".data) msg.data ||
      containsSub ("Invalid updated_at format".data) msg.data
  | _ => false

/-- What the self-healing pass does to one file's contents. -/
def fixFile (c : String) (now : Timestamp) : String :=
  match from_markdown c with
  | .ok _ => c
  | .error e =>
    if isTimestampMsg e then
      match try_fix_memory_file c now with
      | some m => to_markdown m
      | none => c
    else c

/-- `MemoryStore::fix_invalid_memory_files`: rewrite every recoverable
`.md` file whose strict decode failed with a timestamp-format error. -/
def fix_invalid_memory_files (fs : FS) (now : Timestamp) : FS :=
  if fs.dirExists then
    { fs with files := (fs.files.map
        (fun nc => if isMdFile nc.1 then (nc.1, fixFile nc.2 now) else nc)) }
  else fs

/-- `MemoryStore::new`: create the base directory when absent, then run the
self-healing pass. -/
def newStore (fs : FS) (now : Timestamp) : FS :=
  fix_invalid_memory_files (if fs.dirExists then fs else { fs with dirExists := true }) now

/-! ## Shared concrete fixtures -/

def tsA : Timestamp := ⟨2023, 1, 1, 10, 0, 0, 0⟩

def mSample : Memory := ⟨"abc", "Shopping List", "milk and eggs", ["work", "fun"], tsA, tsA⟩

def fsNoDir : FS := ⟨false, []⟩

/-! ## Auxiliary store lemmas -/

theorem lookupFile_eq_none {n : String} {l : List (String × String)}
    (h : n ∉ l.map Prod.fst) : lookupFile n l = none := by
  induction l with
  | nil => rfl
  | cons kv t ih =>
    obtain ⟨k, v⟩ := kv
    simp only [List.map_cons, List.mem_cons] at h
    rw [lookupFile, if_neg (fun he => h (Or.inl he.symm))]
    exact ih (fun hm => h (Or.inr hm))

theorem lookupFile_removeFile {n : String} {l : List (String × String)}
    (h : (l.map Prod.fst).Nodup) : lookupFile n (removeFile n l) = none := by
  induction l with
  | nil => rfl
  | cons kv t ih =>
    obtain ⟨k, v⟩ := kv
    simp only [List.map_cons, List.nodup_cons] at h
    rw [removeFile]
    by_cases hk : k = n
    · subst hk
      rw [if_pos rfl]
      exact lookupFile_eq_none h.1
    · rw [if_neg hk, lookupFile, if_neg hk]
      exact ih h.2

/-! ## Claim C3 (corrected) -/

/-- Claim C3 as frozen is false on the code: with the base directory
absent, `save` does not create it — `File::create` fails, so `save`
returns an `Io` error and leaves the state untouched. -/
theorem C3_counterexample :
    save mSample fsNoDir = (.error .ioErr, fsNoDir)
      ∧ (save mSample fsNoDir).2.dirExists = false := by
  constructor
  · rfl
  · rfl

/-- Claim C3 (amended): `list` (and store construction) create the base
directory when it is absent; `save` never creates it — with the directory
absent it fails with an `Io` error and changes nothing, and with the
directory present it writes the encoded record to `id`'s file. -/
theorem C3_dir_creation :
    (∀ (fs : FS) (now : Timestamp), fs.dirExists = false →
      list fs now = (.ok [], { fs with dirExists := true })) ∧
    (∀ (fs : FS) (now : Timestamp), (newStore fs now).dirExists = true) ∧
    (∀ (m : Memory) (fs : FS), fs.dirExists = false →
      save m fs = (.error .ioErr, fs)) ∧
    (∀ (m : Memory) (fs : FS), fs.dirExists = true →
      save m fs = (.ok (), { fs with
        files := setFile (get_memory_path m.id) (to_markdown m) fs.files })) := by
  refine ⟨?_, ?_, ?_, ?_⟩
  · intro fs now h
    simp [list, h]
  · intro fs now
    unfold newStore fix_invalid_memory_files
    by_cases h : fs.dirExists <;> simp [h]
  · intro m fs h
    simp [save, h]
  · intro m fs h
    simp [save, h]

theorem C3_dir_creation_witness :
    list fsNoDir tsA = (.ok [], { fsNoDir with dirExists := true }) ∧
      save mSample fsNoDir = (.error .ioErr, fsNoDir) :=
  ⟨C3_dir_creation.1 fsNoDir tsA rfl, C3_dir_creation.2.2.1 mSample fsNoDir rfl⟩

/-! ## Claim C6 (confirmed) -/

/-- Claim C6: timestamp decoding tries RFC-3339, then the two
space-separated `%z` formats, then the naive format, in that order, taking
the first success and failing only when all four fail; and the concrete
legacy header value decodes to the same instant as its canonical RFC-3339
form. -/
theorem C6_timestamp_chain :
    (∀ (s : List Char) (t : Timestamp),
        parseRfc3339 s = some t → parseChain s = some t) ∧
    (∀ (s : List Char) (t : Timestamp), parseRfc3339 s = none →
        parseFmtB s = some t → parseChain s = some t) ∧
    (∀ (s : List Char) (t : Timestamp), parseRfc3339 s = none →
        parseFmtB s = none → parseFmtC s = some t → parseChain s = some t) ∧
    (∀ s : List Char, parseRfc3339 s = none → parseFmtB s = none →
        parseFmtC s = none → parseChain s = parseFmtD s) ∧
    parseChain ("2023-01-01 10:00:00 +0000".data)
      = parseChain ("2023-01-01T10:00:00+00:00".data) ∧
    parseChain ("2023-01-01 10:00:00 +0000".data)
      = some ⟨2023, 1, 1, 10, 0, 0, 0⟩ := by
  refine ⟨?_, ?_, ?_, ?_, by decide, by decide⟩
  · intro s t h
    unfold parseChain
    rw [h]
  · intro s t h1 h2
    unfold parseChain
    rw [h1, h2]
  · intro s t h1 h2 h3
    unfold parseChain
    rw [h1, h2, h3]
  · intro s h1 h2 h3
    unfold parseChain
    rw [h1, h2, h3]

theorem C6_timestamp_chain_witness :
    parseChain ("2023-01-02T03:04:05+00:00".data) = some ⟨2023, 1, 2, 3, 4, 5, 0⟩ :=
  C6_timestamp_chain.1 _ _ (by decide)

/-! ## Claim C7 (confirmed) -/

/-- Claim C7: on an id with no file (including the case of a missing base
directory), `get` and `delete` fail with `NotFound(id)` and change nothing
(`get` is read-only by shape; the state `delete` returns is exactly its
input); deleting the same existing id twice succeeds once and then fails
with `NotFound(id)` (file names in a directory are distinct). -/
theorem C7_notfound_semantics :
    (∀ (fs : FS) (id : String),
        fs.dirExists = false ∨ lookupFile (get_memory_path id) fs.files = none →
        get id fs = .error (.notFound id) ∧
          delete id fs = (.error (.notFound id), fs)) ∧
    (∀ (fs : FS) (id : String), fs.dirExists = true →
        (fs.files.map Prod.fst).Nodup →
        (lookupFile (get_memory_path id) fs.files).isSome = true →
        (delete id fs).1 = .ok () ∧
          delete id (delete id fs).2 = (.error (.notFound id), (delete id fs).2)) := by
  constructor
  · intro fs id h
    rcases h with h | h
    · constructor
      · simp [get, h]
      · simp [delete, h]
    · by_cases hd : fs.dirExists
      · constructor
        · simp [get, hd, h]
        · simp [delete, hd, h]
      · constructor
        · simp [get, hd]
        · simp [delete, hd]
  · intro fs id hd hnd hsome
    obtain ⟨c, hc⟩ := Option.isSome_iff_exists.mp hsome
    have hdel : delete id fs = (.ok (), { fs with
        files := removeFile (get_memory_path id) fs.files }) := by
      simp [delete, hd, hc]
    refine ⟨by rw [hdel], ?_⟩
    rw [hdel]
    have hnone : lookupFile (get_memory_path id)
        (removeFile (get_memory_path id) fs.files) = none :=
      lookupFile_removeFile hnd
    simp [delete, hd, hnone]

theorem C7_notfound_semantics_witness :
    (get "zzz" fsNoDir = .error (.notFound "zzz") ∧
      delete "zzz" fsNoDir = (.error (.notFound "zzz"), fsNoDir)) ∧
    ((delete "abc" ⟨true, [("abc.md", "x")]⟩).1 = .ok () ∧
      delete "abc" (delete "abc" (⟨true, [("abc.md", "x")]⟩ : FS)).2
        = (.error (.notFound "abc"), (delete "abc" (⟨true, [("abc.md", "x")]⟩ : FS)).2)) :=
  ⟨C7_notfound_semantics.1 fsNoDir "zzz" (Or.inl rfl),
    C7_notfound_semantics.2 ⟨true, [("abc.md", "x")]⟩ "abc" rfl (by decide) (by decide)⟩

/-! ## Claim C9 (confirmed) -/

/-- Claim C9: `search` and `search_by_tag` are computed by calling `list`
and filtering it — `search` keeps exactly the records whose lowered title,
content or some lowered tag contains the lowered query as a substring, and
`search_by_tag` keeps exactly those with some tag equal to the argument up
to lowercasing. -/
theorem C9_search_is_list_filter :
    ∀ (q : String) (fs : FS) (now : Timestamp) (ms : List Memory) (fs2 : FS),
      list fs now = (.ok ms, fs2) →
      search q fs now = (.ok (ms.filter (fun m =>
          containsSub (lowerStr q).data (lowerStr m.title).data ||
          containsSub (lowerStr q).data (lowerStr m.content).data ||
          m.tags.any (fun t => containsSub (lowerStr q).data (lowerStr t).data))), fs2) ∧
      search_by_tag q fs now = (.ok (ms.filter (fun m =>
          m.tags.any (fun t => lowerStr t == lowerStr q))), fs2) ∧
      (∀ r : Memory,
        r ∈ ms.filter (fun m => m.tags.any (fun t => lowerStr t == lowerStr q)) ↔
          r ∈ ms ∧ r.tags.any (fun t => lowerStr t == lowerStr q) = true) := by
  intro q fs now ms fs2 h
  refine ⟨?_, ?_, ?_⟩
  · unfold search
    rw [h]
  · unfold search_by_tag
    rw [h]
  · intro r
    exact List.mem_filter

theorem C9_search_is_list_filter_witness :
    search "shopping" (⟨true, []⟩ : FS) tsA = (.ok [], ⟨true, []⟩) :=
  (C9_search_is_list_filter "shopping" ⟨true, []⟩ tsA [] ⟨true, []⟩ rfl).1

/-! ## Claim C10 (confirmed) -/

/-- Claim C10: the read paths never change any file: `list` (recovery
included — recovered records go to the result only), `search` and
`search_by_tag` return the file map unchanged, byte for byte.  Only the
self-healing pass run by store construction rewrites files. -/
theorem C10_read_paths_leave_files (fs : FS) (now : Timestamp) (q : String) :
    (list fs now).2.files = fs.files ∧
    (search q fs now).2.files = fs.files ∧
    (search_by_tag q fs now).2.files = fs.files := by
  unfold search search_by_tag list
  by_cases h : fs.dirExists <;> simp [h]

/-! ## Claim C8 (confirmed) -/

/-- Claim C8: decoding any input either succeeds or returns a structured
`InvalidFormat` error drawn from the fixed repertoire naming the violated
field or rule — never an `Io`/`NotFound` error and, the model being total,
never a panic; in particular, whenever the header block is found and id and
title lines are present but no `tags: [...]` group matches, the error is
exactly `InvalidFormat "Missing tags"`. -/
theorem C8_structured_errors :
    (∀ s : String,
      (∃ m, from_markdown s = .ok m) ∨
      ∃ msg, from_markdown s = .error (.invalidFormat msg) ∧
        (msg = "Invalid markdown format" ∨ msg = "Missing id" ∨ msg = "Missing title" ∨
          msg = "Missing tags" ∨ msg = "Missing created_at" ∨ msg = "Missing updated_at" ∨
          (∃ v, msg = "Invalid created_at format: " ++ v) ∨
          (∃ v, msg = "Invalid updated_at format: " ++ v))) ∧
    (∀ (s : String) (fm ct : List Char),
      outerLazy s.data = some (fm, ct) →
      (captureLine "id: ".data fm).isSome = true →
      (captureLine "title: ".data fm).isSome = true →
      captureTagsG fm = none →
      from_markdown s = .error (.invalidFormat "Missing tags")) := by
  constructor
  · intro s
    unfold from_markdown
    split
    · exact Or.inr ⟨_, rfl, Or.inl rfl⟩
    split
    · exact Or.inr ⟨_, rfl, Or.inr (Or.inl rfl)⟩
    split
    · exact Or.inr ⟨_, rfl, Or.inr (Or.inr (Or.inl rfl))⟩
    split
    · exact Or.inr ⟨_, rfl, Or.inr (Or.inr (Or.inr (Or.inl rfl)))⟩
    split
    · exact Or.inr ⟨_, rfl, Or.inr (Or.inr (Or.inr (Or.inr (Or.inl rfl))))⟩
    split
    · exact Or.inr ⟨_, rfl,
        Or.inr (Or.inr (Or.inr (Or.inr (Or.inr (Or.inr (Or.inl ⟨_, rfl⟩))))))⟩
    split
    · exact Or.inr ⟨_, rfl, Or.inr (Or.inr (Or.inr (Or.inr (Or.inr (Or.inl rfl)))))⟩
    split
    · exact Or.inr ⟨_, rfl,
        Or.inr (Or.inr (Or.inr (Or.inr (Or.inr (Or.inr (Or.inr ⟨_, rfl⟩))))))⟩
    · exact Or.inl ⟨_, rfl⟩
  · intro s fm ct h1 hid htl h4
    obtain ⟨i, hi⟩ := Option.isSome_iff_exists.mp hid
    obtain ⟨t2, ht2⟩ := Option.isSome_iff_exists.mp htl
    unfold from_markdown
    rw [h1]
    simp only [hi, ht2, h4]

theorem C8_structured_errors_witness :
    from_markdown "---\nid: a\ntitle: t\ncreated_at: x\nupdated_at: y\n---\n\nbody"
      = .error (.invalidFormat "Missing tags") :=
  C8_structured_errors.2 "---\nid: a\ntitle: t\ncreated_at: x\nupdated_at: y\n---\n\nbody"
    ("id: a\ntitle: t\ncreated_at: x\nupdated_at: y".data) ("body".data)
    (by decide) (by decide) (by decide) (by decide)

/-! ## Claim C4 (corrected) -/

/-- A file whose strict decode fails with `Missing id`: the lazy outer
regex stops at the first delimiter, leaving a frontmatter with no id line,
while the greedy outer regex of the recovery parse stretches to the last
delimiter and finds an id line inside it. -/
def badFile : String := "---\ntitle: t\ntags: [a]\n---\n\nid: x\n---\n\nbody"

def mRec : Memory := ⟨"x", "t", "body", ["a"], tsA, tsA⟩

/-- Claim C4 as frozen is false on the code: here is a file whose strict
decode fails with the structurally-missing-field error `Missing id`, yet
`list` produces a recovered record for it (the permissive extraction uses
a greedy frontmatter regex and succeeds). -/
theorem C4_counterexample :
    from_markdown badFile = .error (.invalidFormat "Missing id") ∧
    (list ⟨true, [("b.md", badFile)]⟩ tsA).1 = .ok [mRec] := by
  constructor
  · decide
  · decide

/-- Claim C4 (amended): the open-time self-healing pass rewrites a file
only when strict decode fails with a timestamp-format message; `list`,
however, attempts the permissive recovery after every strict-decode
failure, whatever its cause, including the recovered record whenever the
permissive extraction succeeds and skipping the file (returning no record,
not crashing) when it fails — in particular whenever the permissive
header extraction itself finds no frontmatter. -/
theorem C4_recovery_scope :
    (∀ (c : String) (now : Timestamp) (m : Memory),
        from_markdown c = .ok m → fixFile c now = c) ∧
    (∀ (c : String) (now : Timestamp) (e : MemoryError),
        from_markdown c = .error e → isTimestampMsg e = false → fixFile c now = c) ∧
    (∀ (n c : String) (now : Timestamp) (e : MemoryError) (m : Memory),
        isMdFile n = true → from_markdown c = .error e →
        try_fix_memory_file c now = some m → listEntry now (n, c) = [m]) ∧
    (∀ (n c : String) (now : Timestamp) (e : MemoryError),
        isMdFile n = true → from_markdown c = .error e →
        try_fix_memory_file c now = none → listEntry now (n, c) = []) ∧
    (∀ (s : String) (now : Timestamp),
        outerGreedy s.data = none → try_fix_memory_file s now = none) := by
  refine ⟨?_, ?_, ?_, ?_, ?_⟩
  · intro c now m h
    unfold fixFile
    rw [h]
  · intro c now e h ht
    unfold fixFile
    rw [h]
    simp [ht]
  · intro n c now e m hn h hf
    unfold listEntry
    rw [if_pos hn, h, hf]
  · intro n c now e hn h hf
    unfold listEntry
    rw [if_pos hn, h, hf]
  · intro s now h
    unfold try_fix_memory_file
    rw [h]

theorem C4_recovery_scope_witness :
    fixFile badFile tsA = badFile ∧
    listEntry tsA ("b.md", badFile) = [mRec] ∧
    try_fix_memory_file "no delimiters here" tsA = none :=
  ⟨C4_recovery_scope.2.1 badFile tsA (.invalidFormat "Missing id")
      (by decide) (by decide),
    C4_recovery_scope.2.2.1 "b.md" badFile tsA (.invalidFormat "Missing id") mRec
      (by decide) (by decide) (by decide),
    C4_recovery_scope.2.2.2.2 "no delimiters here" tsA (by decide)⟩

/-! ## Claim C1 (corrected) -/

def mEmptyTags : Memory := ⟨"a1", "Note", "body", [], tsA, tsA⟩

/-- Claim C1 as frozen is false on the code: a record with empty tags
satisfies every hypothesis of the claim, but `"".split(',')` yields one
empty piece, so the decoded record carries `[""]` where the claim promises
the trimmed empty tag list `[]`. -/
theorem C1_counterexample :
    from_markdown (to_markdown mEmptyTags) = .ok { mEmptyTags with tags := [""] } ∧
    ({ mEmptyTags with tags := [""] } : Memory)
      ≠ { mEmptyTags with
          tags := (mEmptyTags.tags.map (fun t => (trim t.data).asString)) } := by
  constructor
  · decide
  · decide

/-- Claim C1 (amended): decode∘encode reproduces id, title, content, both
timestamps and the trimmed tags for every record with at least one tag
whose fields respect the header syntax: no newlines in id, title or tags,
no commas in tags, none of the later header keys occurring inside an
earlier field, and timestamps with in-range calendar fields (years
0–9999). -/
theorem C1_roundtrip (m : Memory)
    (htags : m.tags ≠ [])
    (htagC : ∀ t ∈ m.tags, ',' ∉ t.data)
    (htagNL : ∀ t ∈ m.tags, '\n' ∉ t.data)
    (hiNL : '\n' ∉ m.id.data) (htNL : '\n' ∉ m.title.data)
    (s1 : containsSub "title: ".data m.id.data = false)
    (s2 : containsSub "tags: [".data m.id.data = false)
    (s3 : containsSub "tags: [".data m.title.data = false)
    (s4 : containsSub "created_at: ".data m.id.data = false)
    (s5 : containsSub "created_at: ".data m.title.data = false)
    (s6 : containsSub "created_at: ".data (tagsJoin m.tags).data = false)
    (s7 : containsSub "updated_at: ".data m.id.data = false)
    (s8 : containsSub "updated_at: ".data m.title.data = false)
    (s9 : containsSub "updated_at: ".data (tagsJoin m.tags).data = false)
    (hc : ValidTs m.created_at) (hu : ValidTs m.updated_at) :
    from_markdown (to_markdown m)
      = .ok { m with tags := (m.tags.map (fun t => (trim t.data).asString)) } := by
  have hgNL : '\n' ∉ (tagsJoin m.tags).data :=
    tagsJoin_no_char (by decide) (by decide) m.tags htagNL
  have hgen := decode_encode_general m hiNL htNL hgNL
    (not_occurs_of_containsSub_eq_false s1)
    (not_occurs_of_containsSub_eq_false s2)
    (not_occurs_of_containsSub_eq_false s3)
    (not_occurs_of_containsSub_eq_false s4)
    (not_occurs_of_containsSub_eq_false s5)
    (not_occurs_of_containsSub_eq_false s6)
    (not_occurs_of_containsSub_eq_false s7)
    (not_occurs_of_containsSub_eq_false s8)
    (not_occurs_of_containsSub_eq_false s9)
    hc hu
  rw [hgen]
  obtain ⟨t, ts, hts⟩ : ∃ t ts, m.tags = t :: ts := by
    cases h : m.tags with
    | nil => exact absurd h htags
    | cons a b => exact ⟨a, b, rfl⟩
  have htl : (splitComma (tagsJoin m.tags).data).map (fun x => (trim x).asString)
      = m.tags.map (fun t => (trim t.data).asString) := by
    rw [hts, splitComma_tagsJoin ts t (hts ▸ htagC)]
    simp [List.map_map, Function.comp, trim_cons_space]
  rw [htl]

theorem C1_roundtrip_witness :
    from_markdown (to_markdown mSample)
      = .ok { mSample with
          tags := (mSample.tags.map (fun t => (trim t.data).asString)) } :=
  C1_roundtrip mSample (by decide) (by decide) (by decide) (by decide) (by decide)
    (by decide) (by decide) (by decide) (by decide) (by decide) (by decide)
    (by decide) (by decide) (by decide) (by decide) (by decide)

/-! ## Claim C2 (corrected) -/

theorem data_lit_tagsEmpty : "tags: []\n".data
    = 't' :: 'a' :: 'g' :: 's' :: ':' :: ' ' :: '[' :: ']' :: '\n' :: [] := rfl

theorem not_occurs_nil {p : List Char} (hp : p ≠ []) : ¬ Occurs p [] := by
  rintro ⟨a, b, heq⟩
  have := congrArg List.length heq
  simp [List.length_append] at this
  exact hp (List.length_eq_zero.mp (by omega))

/-- Claim C2 as frozen is false on the code in its decoding half: an empty
bracket pair decodes to the singleton list containing the empty string,
because `"".split(',')` yields one empty piece — not to an empty
sequence. -/
theorem C2_counterexample :
    from_markdown
        "---\nid: a\ntitle: t\ntags: []\ncreated_at: 2023-01-01T10:00:00+00:00\nupdated_at: 2023-01-01T10:00:00+00:00\n---\n\nbody"
      = .ok ⟨"a", "t", "body", [""], tsA, tsA⟩ ∧ ([""] : List String) ≠ [] := by
  constructor
  · decide
  · decide

/-- Claim C2 (amended): encoding a record with an empty tags list does
produce the header line `tags: []`; decoding that header yields the
one-element tag sequence containing the empty string, not the empty
sequence. -/
theorem C2_empty_tags (m : Memory) (h0 : m.tags = [])
    (hiNL : '\n' ∉ m.id.data) (htNL : '\n' ∉ m.title.data)
    (s1 : containsSub "title: ".data m.id.data = false)
    (s2 : containsSub "tags: [".data m.id.data = false)
    (s3 : containsSub "tags: [".data m.title.data = false)
    (s4 : containsSub "created_at: ".data m.id.data = false)
    (s5 : containsSub "created_at: ".data m.title.data = false)
    (s7 : containsSub "updated_at: ".data m.id.data = false)
    (s8 : containsSub "updated_at: ".data m.title.data = false)
    (hc : ValidTs m.created_at) (hu : ValidTs m.updated_at) :
    Occurs "tags: []\n".data (to_markdown m).data ∧
    from_markdown (to_markdown m) = .ok { m with tags := [""] } := by
  have hj : (tagsJoin m.tags).data = [] := by rw [h0]; rfl
  constructor
  · rw [to_markdown_data m, hj]
    refine ⟨"---\n".data ++ ("id: ".data ++ (m.id.data ++ ('\n' ::
        ("title: ".data ++ (m.title.data ++ ['\n']))))),
      "created_at: ".data ++ (fmtRfc3339 m.created_at ++ ('\n' ::
        ("updated_at: ".data ++ (fmtRfc3339 m.updated_at ++
          ("\n---\n\n".data ++ m.content.data))))), ?_⟩
    simp [docShape, fmShape, restTitle, restTags, restCreated, restUpdated,
      data_lit_delim, data_lit_delim2, data_lit_id, data_lit_title, data_lit_tags,
      data_lit_created, data_lit_updated, data_lit_tagsEmpty,
      List.append_assoc, List.cons_append, List.nil_append]
  · have hgNL : '\n' ∉ (tagsJoin m.tags).data := by
      rw [hj]
      exact List.not_mem_nil _
    have hgen := decode_encode_general m hiNL htNL hgNL
      (not_occurs_of_containsSub_eq_false s1)
      (not_occurs_of_containsSub_eq_false s2)
      (not_occurs_of_containsSub_eq_false s3)
      (not_occurs_of_containsSub_eq_false s4)
      (not_occurs_of_containsSub_eq_false s5)
      (by rw [hj]; exact not_occurs_nil (by decide))
      (not_occurs_of_containsSub_eq_false s7)
      (not_occurs_of_containsSub_eq_false s8)
      (by rw [hj]; exact not_occurs_nil (by decide))
      hc hu
    rw [hgen]
    have htl : (splitComma (tagsJoin m.tags).data).map (fun x => (trim x).asString)
        = [""] := by rw [hj]; rfl
    rw [htl]

theorem C2_empty_tags_witness :
    Occurs "tags: []\n".data (to_markdown mEmptyTags).data ∧
    from_markdown (to_markdown mEmptyTags) = .ok { mEmptyTags with tags := [""] } :=
  C2_empty_tags mEmptyTags rfl (by decide) (by decide) (by decide) (by decide)
    (by decide) (by decide) (by decide) (by decide) (by decide) (by decide) (by decide)

/-! ## Claim C5 (confirmed) -/

theorem isMdFile_mdPath (i : List Char) (hine : i ≠ []) :
    isMdFile (i.asString ++ ".md") = true := by
  unfold isMdFile
  have hdata : (i.asString ++ ".md").data = i ++ ".md".data := by
    rw [String.data_append, asString_data]
  rw [hdata]
  have h1 : 3 < (i ++ ".md".data).length := by
    rw [List.length_append]
    have := List.length_pos.mpr hine
    have h3 : (".md".data).length = 3 := rfl
    omega
  have h2 : (".md".data).isSuffixOf (i ++ ".md".data) = true := by
    rw [List.isSuffixOf_iff_suffix]
    exact ⟨i, rfl⟩
  simp [h1, h2, List.length_pos.mpr hine]

/-- Strict decode of a well-formed document whose `created_at` value fails
all four timestamp formats: the error names the created_at field and
carries the offending value. -/
theorem strict_decode_bad_created (i ttl tg ca ua body : List Char)
    (hiNL : '\n' ∉ i) (htNL : '\n' ∉ ttl) (hgNL : '\n' ∉ tg) (hcaNL : '\n' ∉ ca)
    (huaNL : '\n' ∉ ua)
    (s1 : ¬ Occurs "title: ".data i)
    (s2 : ¬ Occurs "tags: [".data i) (s3 : ¬ Occurs "tags: [".data ttl)
    (s4 : ¬ Occurs "created_at: ".data i) (s5 : ¬ Occurs "created_at: ".data ttl)
    (s6 : ¬ Occurs "created_at: ".data tg)
    (hca : parseChain ca = none) :
    from_markdown ((docShape i ttl tg ca ua body).asString)
      = .error (.invalidFormat ("Invalid created_at format: " ++ ca.asString)) := by
  have hdelim := fmShape_no_delim i ttl tg ca ua hiNL htNL hgNL hcaNL huaNL
  simp only [from_markdown, asString_data, docShape,
    outerLazy_at (fmShape i ttl tg ca ua) body hdelim,
    fm_extract_id i ttl tg ca ua hiNL,
    fm_extract_title i ttl tg ca ua htNL s1,
    fm_extract_tagsG i ttl tg ca ua hgNL s2 s3,
    fm_extract_created i ttl tg ca ua hcaNL s4 s5 s6,
    hca]

/-- The recovery parse on the same document: the greedy frontmatter
extraction and the permissive captures succeed, substituting `now` for the
timestamps. -/
theorem try_fix_wellformed (i ttl tg ca ua body : List Char) (now : Timestamp)
    (hiNL : '\n' ∉ i) (htNL : '\n' ∉ ttl) (hgNL : '\n' ∉ tg) (hgRB : ']' ∉ tg)
    (s1 : ¬ Occurs "title: ".data i)
    (s2 : ¬ Occurs "tags: [".data i) (s3 : ¬ Occurs "tags: [".data ttl)
    (hbody : ¬ Occurs "\n---\n\n".data (("\n---\n\n".data).drop 1 ++ body)) :
    try_fix_memory_file ((docShape i ttl tg ca ua body).asString) now
      = some ⟨i.asString, ttl.asString, body.asString,
          ((splitComma tg).map (fun x => (trim x).asString)), now, now⟩ := by
  simp only [try_fix_memory_file, asString_data, docShape,
    outerGreedy_at (fmShape i ttl tg ca ua) body hbody,
    fm_extract_id i ttl tg ca ua hiNL,
    fm_extract_title i ttl tg ca ua htNL s1,
    fm_extract_tagsL i ttl tg ca ua hgNL hgRB s2 s3]

/-- Claim C5: for a stored file whose `created_at` value parses under none
of the four formats while the id, title and tags lines are well-formed,
`list` includes a recovered record for the file (with the substituted
timestamp `now` in both fields), while `get` on the same id surfaces the
strict `InvalidFormat` error — get applies strict decoding with no
recovery. -/
theorem C5_recovery_inclusion (i ttl tg ca ua body : List Char) (now : Timestamp)
    (hine : i ≠ [])
    (hiNL : '\n' ∉ i) (htNL : '\n' ∉ ttl) (hgNL : '\n' ∉ tg) (hcaNL : '\n' ∉ ca)
    (huaNL : '\n' ∉ ua) (hgRB : ']' ∉ tg)
    (s1 : containsSub "title: ".data i = false)
    (s2 : containsSub "tags: [".data i = false)
    (s3 : containsSub "tags: [".data ttl = false)
    (s4 : containsSub "created_at: ".data i = false)
    (s5 : containsSub "created_at: ".data ttl = false)
    (s6 : containsSub "created_at: ".data tg = false)
    (hca : parseChain ca = none)
    (hbody : containsSub "\n---\n\n".data (("\n---\n\n".data).drop 1 ++ body) = false) :
    get i.asString
        ⟨true, [(i.asString ++ ".md", (docShape i ttl tg ca ua body).asString)]⟩
      = .error (.invalidFormat ("Invalid created_at format: " ++ ca.asString)) ∧
    (list ⟨true, [(i.asString ++ ".md", (docShape i ttl tg ca ua body).asString)]⟩
        now).1
      = .ok [⟨i.asString, ttl.asString, body.asString,
          ((splitComma tg).map (fun x => (trim x).asString)), now, now⟩] := by
  have hstrict := strict_decode_bad_created i ttl tg ca ua body hiNL htNL hgNL hcaNL
    huaNL
    (not_occurs_of_containsSub_eq_false s1)
    (not_occurs_of_containsSub_eq_false s2)
    (not_occurs_of_containsSub_eq_false s3)
    (not_occurs_of_containsSub_eq_false s4)
    (not_occurs_of_containsSub_eq_false s5)
    (not_occurs_of_containsSub_eq_false s6)
    hca
  have hfix := try_fix_wellformed i ttl tg ca ua body now hiNL htNL hgNL hgRB
    (not_occurs_of_containsSub_eq_false s1)
    (not_occurs_of_containsSub_eq_false s2)
    (not_occurs_of_containsSub_eq_false s3)
    (not_occurs_of_containsSub_eq_false hbody)
  constructor
  · have hlook : lookupFile (get_memory_path (i.asString))
        [(i.asString ++ ".md", (docShape i ttl tg ca ua body).asString)]
        = some ((docShape i ttl tg ca ua body).asString) := by
      unfold get_memory_path lookupFile
      rw [if_pos rfl]
    simp only [get, if_true, hlook, hstrict]
  · simp only [list, if_true, List.map_cons, List.map_nil, listEntry,
      isMdFile_mdPath i hine, if_true, hstrict, hfix, List.flatten]
    rfl

theorem C5_recovery_inclusion_witness :
    get ("a".data).asString
        ⟨true, [(("a".data).asString ++ ".md",
          (docShape "a".data "t".data "x".data "garbage".data "alsobad".data
            "hello".data).asString)]⟩
      = .error (.invalidFormat
          ("Invalid created_at format: " ++ ("garbage".data).asString)) ∧
    (list ⟨true, [(("a".data).asString ++ ".md",
        (docShape "a".data "t".data "x".data "garbage".data "alsobad".data
          "hello".data).asString)]⟩ tsA).1
      = .ok [⟨("a".data).asString, ("t".data).asString, ("hello".data).asString,
          ((splitComma "x".data).map (fun x => (trim x).asString)), tsA, tsA⟩] :=
  C5_recovery_inclusion "a".data "t".data "x".data "garbage".data "alsobad".data
    "hello".data tsA (by decide) (by decide) (by decide) (by decide) (by decide)
    (by decide) (by decide) (by decide) (by decide) (by decide) (by decide)
    (by decide) (by decide) (by decide) (by decide)
